import Mathlib

/-!
# WebSocket XOR masking: scalar cascade and vector strategies

A shallow embedding of `mask_original_optimized.go` and `mask_simd.go`.

* A byte is a natural number below 256; a buffer or key is a list of bytes.
* A Go slice `b` over a caller-owned array is a pair of lists: the bytes of the
  array that lie before the slice window (`done`) and the window itself (`cur`).
  The re-slicing statement `b = b[n:]` moves `n` bytes from `cur` to `done`; the
  caller observes `done ++ cur` when the call returns.
* A run-time panic (slice bounds, index out of range) is a fault value carrying the
  memory contents at the moment of the panic.
* Every executed block appends a tag to a ghost log, so that statements about which
  loop ran how often can be made about the same definitions.
-/

namespace WsMask

/-- A byte sequence; the elements are meant to be below 256, see `IsBytes`. -/
abbrev Bytes := List Nat

/-- Every element of the list is a byte value. -/
def IsBytes (b : Bytes) : Prop := ∀ x ∈ b, x < 256

instance (b : Bytes) : Decidable (IsBytes b) := by
  unfold IsBytes; infer_instance

/-- Ghost tags, one per kind of block the strategies execute. -/
inductive Blk where
  | v256    -- one iteration of the 4 x 32-byte vector loop (128 bytes)
  | v128    -- one iteration of the 8 x 16-byte vector loop (128 bytes)
  | w64x8   -- one iteration of the 8 x uint64 loop (64 bytes)
  | w64x4   -- the 32-byte step
  | w64x2   -- the 16-byte step
  | w64x1   -- the 8-byte step
  | w32     -- the 4-byte step
  | byte    -- one iteration of the byte-wise loop
  deriving DecidableEq, Repr

/-- Abnormal outcomes: a Go run-time panic (with the memory as it was at that moment),
or exhaustion of the fuel of a `for` loop of the model. -/
inductive Fault where
  | panic (mem : Bytes)
  | fuel
  deriving DecidableEq, Repr

/-- Machine state of one call: the underlying array split at the start of the slice
variable `b`, and the ghost log. -/
structure Buf where
  done : Bytes
  cur : Bytes
  log : List Blk
  deriving DecidableEq, Repr

/-- The caller-visible contents of the whole buffer. -/
def Buf.mem (s : Buf) : Bytes := s.done ++ s.cur

/-- Turn a failed bounds check into a panic that records the current memory. -/
def orPanic {α : Type} (s : Buf) : Option α → Except Fault α
  | some a => Except.ok a
  | none => Except.error (Fault.panic s.mem)

/-! ## `encoding/binary` little-endian primitives

Go standard-library functions, embedded by their library definitions. -/

/-- Go `binary.LittleEndian.Uint32(b)`: needs `len(b) >= 4` (it evaluates `b[3]`), returns
`uint32(b[0]) | uint32(b[1])<<8 | uint32(b[2])<<16 | uint32(b[3])<<24`.
No shift of a byte can leave 32 bits, so no reduction is needed. -/
def leUint32 : Bytes → Option Nat
  | b0 :: b1 :: b2 :: b3 :: _ => some (b0 ||| (b1 <<< 8) ||| (b2 <<< 16) ||| (b3 <<< 24))
  | _ => none

/-- Go `binary.LittleEndian.Uint64(b)`: needs `len(b) >= 8` (it evaluates `b[7]`). -/
def leUint64 : Bytes → Option Nat
  | b0 :: b1 :: b2 :: b3 :: b4 :: b5 :: b6 :: b7 :: _ =>
    some (b0 ||| (b1 <<< 8) ||| (b2 <<< 16) ||| (b3 <<< 24) |||
          (b4 <<< 32) ||| (b5 <<< 40) ||| (b6 <<< 48) ||| (b7 <<< 56))
  | _ => none

/-- The four bytes `byte(v), byte(v>>8), byte(v>>16), byte(v>>24)`. -/
def bytes4 (v : Nat) : Bytes :=
  [v % 256, (v >>> 8) % 256, (v >>> 16) % 256, (v >>> 24) % 256]

/-- The eight bytes `byte(v), byte(v>>8), ..., byte(v>>56)`. -/
def bytes8 (v : Nat) : Bytes :=
  [v % 256, (v >>> 8) % 256, (v >>> 16) % 256, (v >>> 24) % 256,
   (v >>> 32) % 256, (v >>> 40) % 256, (v >>> 48) % 256, (v >>> 56) % 256]

/-- Go `binary.LittleEndian.PutUint32(dst, v)`: needs `len(dst) >= 4`, overwrites `dst[0..4]`. -/
def lePutUint32 (dst : Bytes) (v : Nat) : Option Bytes :=
  if 4 ≤ dst.length then some (bytes4 v ++ dst.drop 4) else none

/-- Go `binary.LittleEndian.PutUint64(dst, v)`: needs `len(dst) >= 8`, overwrites `dst[0..8]`. -/
def lePutUint64 (dst : Bytes) (v : Nat) : Option Bytes :=
  if 8 ≤ dst.length then some (bytes8 v ++ dst.drop 8) else none

/-! ## Slices -/

/-- The slice expression `b[lo:hi]`; out-of-range bounds panic. -/
def slice (b : Bytes) (lo hi : Nat) : Option Bytes :=
  if lo ≤ hi ∧ hi ≤ b.length then some ((b.drop lo).take (hi - lo)) else none

/-- The array after the sub-slice `b[lo:hi]`, which aliases it, received contents `w`. -/
def splice (b : Bytes) (lo hi : Nat) (w : Bytes) : Bytes :=
  b.take lo ++ w ++ b.drop hi

/-- Run `f` on the aliasing sub-slice `b[lo:hi]` and write its result through. -/
def onSlice (lo hi : Nat) (f : Bytes → Option Bytes) (s : Buf) : Except Fault Buf := do
  let w ← orPanic s (slice s.cur lo hi)
  let w2 ← orPanic s (f w)
  pure (Buf.mk s.done (splice s.cur lo hi w2) s.log)

/-- The statement `b = b[n:]`. -/
def reslice (n : Nat) (s : Buf) : Except Fault Buf :=
  if n ≤ s.cur.length then
    Except.ok (Buf.mk (s.done ++ s.cur.take n) (s.cur.drop n) s.log)
  else Except.error (Fault.panic s.mem)

/-- Ghost statement: record an executed block. -/
def logBlk (t : Blk) (s : Buf) : Buf := Buf.mk s.done s.cur (s.log ++ [t])

/-! ## Scalar steps -/

/-- The pair `v := Uint64(b[lo:hi]); PutUint64(b[lo:hi], v^key64)`. -/
def xor64At (key64 lo hi : Nat) (s : Buf) : Except Fault Buf :=
  onSlice lo hi (fun w => (leUint64 w).bind (fun v => lePutUint64 w (v ^^^ key64))) s

/-- The pair `v := Uint32(b[lo:hi]); PutUint32(b[lo:hi], v^key32)`. -/
def xor32At (key32 lo hi : Nat) (s : Buf) : Except Fault Buf :=
  onSlice lo hi (fun w => (leUint32 w).bind (fun v => lePutUint32 w (v ^^^ key32))) s

/-- Go `key64 := uint64(key32)<<32 | uint64(key32)`; a 32-bit value shifted by 32 stays
inside 64 bits. -/
def mkKey64 (key32 : Nat) : Nat := (key32 <<< 32) ||| key32

/-- The loop `for i := range b { b[i] ^= key[i&3] }`: `n` iterations remain, the next
index is `i`. -/
def byteLoop (key : Bytes) : Nat → Nat → Buf → Except Fault Buf
  | 0, _, s => Except.ok s
  | n + 1, i, s => do
    let x ← orPanic s (s.cur[i]?)
    let k ← orPanic s (key[i &&& 3]?)
    byteLoop key n (i + 1) (logBlk Blk.byte (Buf.mk s.done (s.cur.set i (x ^^^ k)) s.log))

/-- Lines 101-103 of the cascade: the byte-wise tail. -/
def tailBytes (key : Bytes) (s : Buf) : Except Fault Buf :=
  byteLoop key s.cur.length 0 s

/-- Lines 91-99: `if len(b) >= 4 { ... b = b[4:]; if len(b) == 0 { return } }`, then the tail. -/
def step4 (key : Bytes) (key32 : Nat) (s : Buf) : Except Fault Buf :=
  if 4 ≤ s.cur.length then do
    let s ← xor32At key32 0 4 s
    let s ← reslice 4 s
    let s := logBlk Blk.w32 s
    if s.cur.length = 0 then pure s else tailBytes key s
  else tailBytes key s

/-- Lines 81-89: the 8-byte step, then the rest of the cascade. -/
def step8 (key : Bytes) (key32 key64 : Nat) (s : Buf) : Except Fault Buf :=
  if 8 ≤ s.cur.length then do
    let s ← xor64At key64 0 8 s
    let s ← reslice 8 s
    let s := logBlk Blk.w64x1 s
    if s.cur.length = 0 then pure s else step4 key key32 s
  else step4 key key32 s

/-- Lines 68-79: the 16-byte step, then the rest of the cascade. -/
def step16 (key : Bytes) (key32 key64 : Nat) (s : Buf) : Except Fault Buf :=
  if 16 ≤ s.cur.length then do
    let s ← xor64At key64 0 8 s
    let s ← xor64At key64 8 16 s
    let s ← reslice 16 s
    let s := logBlk Blk.w64x2 s
    if s.cur.length = 0 then pure s else step8 key key32 key64 s
  else step8 key key32 key64 s

/-- Lines 49-66: the 32-byte step, then the rest of the cascade. -/
def step32 (key : Bytes) (key32 key64 : Nat) (s : Buf) : Except Fault Buf :=
  if 32 ≤ s.cur.length then do
    let s ← xor64At key64 0 8 s
    let s ← xor64At key64 8 16 s
    let s ← xor64At key64 16 24 s
    let s ← xor64At key64 24 32 s
    let s ← reslice 32 s
    let s := logBlk Blk.w64x4 s
    if s.cur.length = 0 then pure s else step16 key key32 key64 s
  else step16 key key32 key64 s

/-- Lines 18-44: `for len(b) >= 64 { 8 x (load, xor, store); b = b[64:] }`. -/
def loop64 (key64 : Nat) : Nat → Buf → Except Fault Buf
  | 0, s => if 64 ≤ s.cur.length then Except.error Fault.fuel else Except.ok s
  | fuel + 1, s =>
    if 64 ≤ s.cur.length then do
      let s ← xor64At key64 0 8 s
      let s ← xor64At key64 8 16 s
      let s ← xor64At key64 16 24 s
      let s ← xor64At key64 24 32 s
      let s ← xor64At key64 32 40 s
      let s ← xor64At key64 40 48 s
      let s ← xor64At key64 48 56 s
      let s ← xor64At key64 56 64 s
      let s ← reslice 64 s
      loop64 key64 fuel (logBlk Blk.w64x8 s)
    else Except.ok s

/-- Lines 18-103 of `mask_original_optimized.go`. The same text, token for token, is
lines 63-148, 196-281 and 367-452 of `mask_simd.go`, so the one definition embeds all
four copies. -/
def cascade (key : Bytes) (key32 key64 : Nat) (s : Buf) : Except Fault Buf := do
  let s ← loop64 key64 s.cur.length s
  if s.cur.length = 0 then pure s else step32 key key32 key64 s

/-! ## Vector steps

The `simd/archsimd` operations are library intrinsics; a vector register is the list of its
byte lanes and `Xor` acts lane by lane. -/

/-- Go `archsimd.LoadUint8x16Slice` / `LoadUint8x32Slice`: the first `n` bytes of the slice
as `n` lanes; panics on a shorter slice. -/
def loadLanes (n : Nat) (src : Bytes) : Option Bytes :=
  if n ≤ src.length then some (src.take n) else none

/-- Go `Uint8x16.Xor` / `Uint8x32.Xor`: lane-wise exclusive or. -/
def xorLanes (v k : Bytes) : Bytes := List.zipWith (fun a c => a ^^^ c) v k

/-- Go `v.StoreSlice(dst)`: writes the lanes to the front of `dst`; panics on a shorter slice. -/
def storeLanes (v dst : Bytes) : Option Bytes :=
  if v.length ≤ dst.length then some (v ++ dst.drop v.length) else none

/-- The pair `v := LoadUint8xNSlice(b[lo:hi]).Xor(keyV); v.StoreSlice(b[lo:hi])`. -/
def xorVecAt (n : Nat) (keyV : Bytes) (lo hi : Nat) (s : Buf) : Except Fault Buf :=
  onSlice lo hi (fun w => (loadLanes n w).bind (fun v => storeLanes (xorLanes v keyV) w)) s

/-- Go `var key128Bytes [16]byte` after the two `PutUint64` calls. -/
def key128Bytes (key64 : Nat) : Option Bytes := do
  let a : Bytes := List.replicate 16 0
  let a := splice a 0 8 (← (slice a 0 8).bind (fun w => lePutUint64 w key64))
  let a := splice a 8 16 (← (slice a 8 16).bind (fun w => lePutUint64 w key64))
  pure a

/-- Go `var key256Bytes [32]byte` after the four `PutUint64` calls. -/
def key256Bytes (key64 : Nat) : Option Bytes := do
  let a : Bytes := List.replicate 32 0
  let a := splice a 0 8 (← (slice a 0 8).bind (fun w => lePutUint64 w key64))
  let a := splice a 8 16 (← (slice a 8 16).bind (fun w => lePutUint64 w key64))
  let a := splice a 16 24 (← (slice a 16 24).bind (fun w => lePutUint64 w key64))
  let a := splice a 24 32 (← (slice a 24 32).bind (fun w => lePutUint64 w key64))
  pure a

/-- The 128-bit loop `for len(b) >= 128 { 8 x (load, xor, store); b = b[128:] }`. -/
def loop128 (key128 : Bytes) : Nat → Buf → Except Fault Buf
  | 0, s => if 128 ≤ s.cur.length then Except.error Fault.fuel else Except.ok s
  | fuel + 1, s =>
    if 128 ≤ s.cur.length then do
      let s ← xorVecAt 16 key128 0 16 s
      let s ← xorVecAt 16 key128 16 32 s
      let s ← xorVecAt 16 key128 32 48 s
      let s ← xorVecAt 16 key128 48 64 s
      let s ← xorVecAt 16 key128 64 80 s
      let s ← xorVecAt 16 key128 80 96 s
      let s ← xorVecAt 16 key128 96 112 s
      let s ← xorVecAt 16 key128 112 128 s
      let s ← reslice 128 s
      loop128 key128 fuel (logBlk Blk.v128 s)
    else Except.ok s

/-- The 256-bit loop `for len(b) >= 128 { 4 x (load, xor, store); b = b[128:] }`. -/
def loop256 (key256 : Bytes) : Nat → Buf → Except Fault Buf
  | 0, s => if 128 ≤ s.cur.length then Except.error Fault.fuel else Except.ok s
  | fuel + 1, s =>
    if 128 ≤ s.cur.length then do
      let s ← xorVecAt 32 key256 0 32 s
      let s ← xorVecAt 32 key256 32 64 s
      let s ← xorVecAt 32 key256 64 96 s
      let s ← xorVecAt 32 key256 96 128 s
      let s ← reslice 128 s
      loop256 key256 fuel (logBlk Blk.v256 s)
    else Except.ok s

/-! ## The four strategies -/

/-- Go `MaskXOR_Original_Optimized`, returning the final machine state. -/
def MaskXOR_Original_Optimized_st (b key : Bytes) : Except Fault Buf := do
  let s : Buf := Buf.mk [] b []
  let key32 ← orPanic s (leUint32 key)
  let key64 := mkKey64 key32
  cascade key key32 key64 s

/-- Go `MaskXOR_SIMD128`, returning the final machine state. -/
def MaskXOR_SIMD128_st (b key : Bytes) : Except Fault Buf := do
  let s : Buf := Buf.mk [] b []
  let key32 ← orPanic s (leUint32 key)
  let key64 := mkKey64 key32
  if 512 ≤ s.cur.length then do
    let key128 ← orPanic s (key128Bytes key64)
    let s ← loop128 key128 s.cur.length s
    if s.cur.length = 0 then pure s else cascade key key32 key64 s
  else cascade key key32 key64 s

/-- Go `MaskXOR_SIMD256`, returning the final machine state. -/
def MaskXOR_SIMD256_st (b key : Bytes) : Except Fault Buf := do
  let s : Buf := Buf.mk [] b []
  let key32 ← orPanic s (leUint32 key)
  let key64 := mkKey64 key32
  if 512 ≤ s.cur.length then do
    let key256 ← orPanic s (key256Bytes key64)
    let s ← loop256 key256 s.cur.length s
    if s.cur.length = 0 then pure s else cascade key key32 key64 s
  else cascade key key32 key64 s

/-- Lines 327-453 of `MaskXOR_SIMD256_128`: the 128-bit stage and the cascade. -/
def hybridFrom512 (key : Bytes) (key32 key64 : Nat) (s : Buf) : Except Fault Buf :=
  if 512 ≤ s.cur.length then do
    let key128 ← orPanic s (key128Bytes key64)
    let s ← loop128 key128 s.cur.length s
    if s.cur.length = 0 then pure s else cascade key key32 key64 s
  else cascade key key32 key64 s

/-- Go `MaskXOR_SIMD256_128`, returning the final machine state. -/
def MaskXOR_SIMD256_128_st (b key : Bytes) : Except Fault Buf := do
  let s : Buf := Buf.mk [] b []
  let key32 ← orPanic s (leUint32 key)
  let key64 := mkKey64 key32
  if 4096 ≤ s.cur.length then do
    let key256 ← orPanic s (key256Bytes key64)
    let s ← loop256 key256 s.cur.length s
    if s.cur.length = 0 then pure s else hybridFrom512 key key32 key64 s
  else hybridFrom512 key key32 key64 s

/-- What the caller sees: the buffer after a normal return, or the fault. -/
def observe : Except Fault Buf → Except Fault Bytes
  | Except.ok s => Except.ok s.mem
  | Except.error e => Except.error e

/-- Go `MaskXOR_Original_Optimized(b, key)` as the caller observes it. -/
def MaskXOR_Original_Optimized (b key : Bytes) : Except Fault Bytes :=
  observe (MaskXOR_Original_Optimized_st b key)

/-- Go `MaskXOR_SIMD128(b, key)` as the caller observes it. -/
def MaskXOR_SIMD128 (b key : Bytes) : Except Fault Bytes :=
  observe (MaskXOR_SIMD128_st b key)

/-- Go `MaskXOR_SIMD256(b, key)` as the caller observes it. -/
def MaskXOR_SIMD256 (b key : Bytes) : Except Fault Bytes :=
  observe (MaskXOR_SIMD256_st b key)

/-- Go `MaskXOR_SIMD256_128(b, key)` as the caller observes it. -/
def MaskXOR_SIMD256_128 (b key : Bytes) : Except Fault Bytes :=
  observe (MaskXOR_SIMD256_128_st b key)

/-! ## Reference transform and auxiliary definitions -/

/-- Reference transform: the element at list position `j` is combined with
`key[(i + j) mod 4]`; `i` is the absolute offset of the head of the list. -/
def xorAt (key : Bytes) (i : Nat) : Bytes → Bytes
  | [] => []
  | x :: xs => (x ^^^ key.getD (i % 4) 0) :: xorAt key (i + 1) xs

/-- The buffer with its first `n` bytes masked and the others untouched. -/
def maskPre (key : Bytes) (n : Nat) (b : Bytes) : Bytes :=
  xorAt key 0 (b.take n) ++ b.drop n

/-- The 16- and 32-byte key patterns: `m` copies of the four key bytes. -/
def tileOf (k0 k1 k2 k3 : Nat) : Nat → Bytes
  | 0 => []
  | m + 1 => k0 :: k1 :: k2 :: k3 :: tileOf k0 k1 k2 k3 m

/-- The key has at least four entries and the first four are bytes. -/
def GoodKey (key : Bytes) : Prop := 4 ≤ key.length ∧ IsBytes (key.take 4)

instance (key : Bytes) : Decidable (GoodKey key) := by
  unfold GoodKey; infer_instance

/-- The deterministic test data of `benchMaskInPlace` and `benchMaskCopy`
(`mask_bench_test.go`): `buf[i] = byte(i*31 + 7)`. -/
def benchBuf (size : Nat) : Bytes := (List.range size).map (fun i => (i * 31 + 7) % 256)

/-- The key of the benchmarks, `[]byte{1, 2, 3, 4}`. -/
def benchKey : Bytes := [1, 2, 3, 4]

/-! ## Expected final state and block sequence of the cascade -/

/-- The state in which a run over window `c` (bytes `d` already done) ends: everything up
to the last multiple of 4 is in `done`, masked; the at most 3 tail bytes are still in the
window, masked in place by the byte-wise loop; `lg` is the log. -/
def finalState (key d c : Bytes) (lg : List Blk) : Buf :=
  Buf.mk (d ++ xorAt key 0 (c.take (c.length - c.length % 4)))
    (xorAt key 0 (c.drop (c.length - c.length % 4))) lg

/-- Blocks of the byte-wise loop on `n` bytes. -/
def tailLog (n : Nat) : List Blk := List.replicate n Blk.byte

/-- Blocks of the cascade from the 4-byte step on, for `n` remaining bytes. -/
def log4 (n : Nat) : List Blk := if 4 ≤ n then Blk.w32 :: tailLog (n - 4) else tailLog n

/-- Blocks of the cascade from the 8-byte step on. -/
def log8 (n : Nat) : List Blk := if 8 ≤ n then Blk.w64x1 :: log4 (n - 8) else log4 n

/-- Blocks of the cascade from the 16-byte step on. -/
def log16 (n : Nat) : List Blk := if 16 ≤ n then Blk.w64x2 :: log8 (n - 16) else log8 n

/-- Blocks of the cascade from the 32-byte step on. -/
def log32 (n : Nat) : List Blk := if 32 ≤ n then Blk.w64x4 :: log16 (n - 32) else log16 n

/-- Blocks of the whole cascade on `n` bytes. -/
def cascadeLog (n : Nat) : List Blk := List.replicate (n / 64) Blk.w64x8 ++ log32 (n % 64)

/-- Blocks of a strategy that runs one vector loop (tag `t`) from 512 bytes on and the
cascade on what is left. -/
def vecLog (t : Blk) (n : Nat) : List Blk :=
  if 512 ≤ n then List.replicate (n / 128) t ++ cascadeLog (n % 128) else cascadeLog n

/-- Blocks of the hybrid strategy on `n` bytes. -/
def hybridLog (n : Nat) : List Blk :=
  if 4096 ≤ n then List.replicate (n / 128) Blk.v256 ++ vecLog Blk.v128 (n % 128)
  else vecLog Blk.v128 n

/-- The call `f b key` returns normally (no panic, no fuel exhaustion) and has masked the
whole buffer: same length, and byte `i` is `b[i] XOR key[i mod 4]`. -/
def CompletesWhole (f : Bytes → Bytes → Except Fault Bytes) (b key : Bytes) : Prop :=
  ∃ r, f b key = Except.ok r ∧ r.length = b.length ∧
    ∀ i x, b[i]? = some x → ∃ k, key[i % 4]? = some k ∧ r[i]? = some (x ^^^ k)

/-! ## Bit-level facts -/

theorem or_shl_eq_add (a x n : Nat) (h : a < 2 ^ n) : a ||| (x <<< n) = a + x * 2 ^ n := by
  rw [Nat.shiftLeft_eq, Nat.mul_comm x, Nat.lor_comm, ← Nat.mul_add_lt_is_or h]
  omega

theorem xor_shr_byte (a b j : Nat) :
    ((a ^^^ b) >>> j) % 256 = ((a >>> j) % 256) ^^^ ((b >>> j) % 256) := by
  apply Nat.eq_of_testBit_eq
  intro i
  have h : (256 : Nat) = 2 ^ 8 := by norm_num
  rw [h]
  simp only [Nat.testBit_mod_two_pow, Nat.testBit_shiftRight, Nat.testBit_xor]
  by_cases hi : i < 8 <;> simp [hi]

theorem xor_byte (a b : Nat) : (a ^^^ b) % 256 = (a % 256) ^^^ (b % 256) := by
  have := xor_shr_byte a b 0
  simpa using this

theorem le32_sum (x0 x1 x2 x3 : Nat) (h0 : x0 < 256) (h1 : x1 < 256) (h2 : x2 < 256) :
    x0 ||| (x1 <<< 8) ||| (x2 <<< 16) ||| (x3 <<< 24)
      = x0 + x1 * 2 ^ 8 + x2 * 2 ^ 16 + x3 * 2 ^ 24 := by
  rw [or_shl_eq_add x0 x1 8 (by omega), or_shl_eq_add _ x2 16 (by omega),
    or_shl_eq_add _ x3 24 (by omega)]

theorem le64_sum (x0 x1 x2 x3 x4 x5 x6 x7 : Nat) (h0 : x0 < 256) (h1 : x1 < 256)
    (h2 : x2 < 256) (h3 : x3 < 256) (h4 : x4 < 256) (h5 : x5 < 256) (h6 : x6 < 256) :
    x0 ||| (x1 <<< 8) ||| (x2 <<< 16) ||| (x3 <<< 24) |||
      (x4 <<< 32) ||| (x5 <<< 40) ||| (x6 <<< 48) ||| (x7 <<< 56)
      = x0 + x1 * 2 ^ 8 + x2 * 2 ^ 16 + x3 * 2 ^ 24
        + x4 * 2 ^ 32 + x5 * 2 ^ 40 + x6 * 2 ^ 48 + x7 * 2 ^ 56 := by
  rw [or_shl_eq_add x0 x1 8 (by omega), or_shl_eq_add _ x2 16 (by omega),
    or_shl_eq_add _ x3 24 (by omega), or_shl_eq_add _ x4 32 (by omega),
    or_shl_eq_add _ x5 40 (by omega), or_shl_eq_add _ x6 48 (by omega),
    or_shl_eq_add _ x7 56 (by omega)]

theorem bytes4_sum (x0 x1 x2 x3 : Nat) (h0 : x0 < 256) (h1 : x1 < 256) (h2 : x2 < 256)
    (h3 : x3 < 256) :
    bytes4 (x0 + x1 * 2 ^ 8 + x2 * 2 ^ 16 + x3 * 2 ^ 24) = [x0, x1, x2, x3] := by
  simp only [bytes4, Nat.shiftRight_eq_div_pow]
  refine congrArg₂ _ (by omega) (congrArg₂ _ (by omega) (congrArg₂ _ (by omega)
    (congrArg₂ _ (by omega) rfl)))

theorem bytes8_sum (x0 x1 x2 x3 x4 x5 x6 x7 : Nat) (h0 : x0 < 256) (h1 : x1 < 256)
    (h2 : x2 < 256) (h3 : x3 < 256) (h4 : x4 < 256) (h5 : x5 < 256) (h6 : x6 < 256)
    (h7 : x7 < 256) :
    bytes8 (x0 + x1 * 2 ^ 8 + x2 * 2 ^ 16 + x3 * 2 ^ 24
        + x4 * 2 ^ 32 + x5 * 2 ^ 40 + x6 * 2 ^ 48 + x7 * 2 ^ 56)
      = [x0, x1, x2, x3, x4, x5, x6, x7] := by
  simp only [bytes8, Nat.shiftRight_eq_div_pow]
  refine congrArg₂ _ (by omega) (congrArg₂ _ (by omega) (congrArg₂ _ (by omega)
    (congrArg₂ _ (by omega) (congrArg₂ _ (by omega) (congrArg₂ _ (by omega)
    (congrArg₂ _ (by omega) (congrArg₂ _ (by omega) rfl)))))))

theorem bytes4_le32 (x0 x1 x2 x3 : Nat) (h0 : x0 < 256) (h1 : x1 < 256) (h2 : x2 < 256)
    (h3 : x3 < 256) :
    bytes4 (x0 ||| (x1 <<< 8) ||| (x2 <<< 16) ||| (x3 <<< 24)) = [x0, x1, x2, x3] := by
  rw [le32_sum x0 x1 x2 x3 h0 h1 h2]
  exact bytes4_sum x0 x1 x2 x3 h0 h1 h2 h3

theorem bytes8_le64 (x0 x1 x2 x3 x4 x5 x6 x7 : Nat) (h0 : x0 < 256) (h1 : x1 < 256)
    (h2 : x2 < 256) (h3 : x3 < 256) (h4 : x4 < 256) (h5 : x5 < 256) (h6 : x6 < 256)
    (h7 : x7 < 256) :
    bytes8 (x0 ||| (x1 <<< 8) ||| (x2 <<< 16) ||| (x3 <<< 24) |||
      (x4 <<< 32) ||| (x5 <<< 40) ||| (x6 <<< 48) ||| (x7 <<< 56))
      = [x0, x1, x2, x3, x4, x5, x6, x7] := by
  rw [le64_sum x0 x1 x2 x3 x4 x5 x6 x7 h0 h1 h2 h3 h4 h5 h6]
  exact bytes8_sum x0 x1 x2 x3 x4 x5 x6 x7 h0 h1 h2 h3 h4 h5 h6 h7

theorem bytes4_xor (a b : Nat) :
    bytes4 (a ^^^ b) = List.zipWith (fun x y => x ^^^ y) (bytes4 a) (bytes4 b) := by
  simp [bytes4, xor_shr_byte, xor_byte]

theorem bytes8_xor (a b : Nat) :
    bytes8 (a ^^^ b) = List.zipWith (fun x y => x ^^^ y) (bytes8 a) (bytes8 b) := by
  simp [bytes8, xor_shr_byte, xor_byte]

theorem le32_lt (x0 x1 x2 x3 : Nat) (h0 : x0 < 256) (h1 : x1 < 256) (h2 : x2 < 256)
    (h3 : x3 < 256) :
    x0 ||| (x1 <<< 8) ||| (x2 <<< 16) ||| (x3 <<< 24) < 2 ^ 32 := by
  rw [le32_sum x0 x1 x2 x3 h0 h1 h2]; omega

theorem bytes8_mkKey64 (k0 k1 k2 k3 : Nat) (h0 : k0 < 256) (h1 : k1 < 256) (h2 : k2 < 256)
    (h3 : k3 < 256) :
    bytes8 (mkKey64 (k0 ||| (k1 <<< 8) ||| (k2 <<< 16) ||| (k3 <<< 24)))
      = [k0, k1, k2, k3, k0, k1, k2, k3] := by
  have hlt := le32_lt k0 k1 k2 k3 h0 h1 h2 h3
  unfold mkKey64
  rw [Nat.lor_comm, or_shl_eq_add _ _ 32 hlt, le32_sum k0 k1 k2 k3 h0 h1 h2]
  have e : k0 + k1 * 2 ^ 8 + k2 * 2 ^ 16 + k3 * 2 ^ 24
        + (k0 + k1 * 2 ^ 8 + k2 * 2 ^ 16 + k3 * 2 ^ 24) * 2 ^ 32
      = k0 + k1 * 2 ^ 8 + k2 * 2 ^ 16 + k3 * 2 ^ 24
        + k0 * 2 ^ 32 + k1 * 2 ^ 40 + k2 * 2 ^ 48 + k3 * 2 ^ 56 := by ring
  rw [e]
  exact bytes8_sum k0 k1 k2 k3 k0 k1 k2 k3 h0 h1 h2 h3 h0 h1 h2 h3

/-! ## The reference transform on lists -/

@[simp] theorem ok_bind {α β : Type} (a : α) (f : α → Except Fault β) :
    (Except.ok a >>= f) = f a := rfl

@[simp] theorem error_bind {α β : Type} (e : Fault) (f : α → Except Fault β) :
    ((Except.error e : Except Fault α) >>= f) = Except.error e := rfl

@[simp] theorem orPanic_some {α : Type} (s : Buf) (a : α) : orPanic s (some a) = Except.ok a :=
  rfl

@[simp] theorem orPanic_none {α : Type} (s : Buf) :
    orPanic s (none : Option α) = Except.error (Fault.panic s.mem) := rfl

theorem xorAt_length (key : Bytes) (l : Bytes) : ∀ i, (xorAt key i l).length = l.length := by
  induction l with
  | nil => intro i; rfl
  | cons x xs ih => intro i; simp [xorAt, ih]

theorem xorAt_append (key : Bytes) (a b : Bytes) :
    ∀ i, xorAt key i (a ++ b) = xorAt key i a ++ xorAt key (i + a.length) b := by
  induction a with
  | nil => intro i; simp [xorAt]
  | cons x xs ih =>
    intro i
    show xorAt key i (x :: (xs ++ b)) = xorAt key i (x :: xs) ++ _
    simp only [xorAt, List.cons_append, List.length_cons]
    rw [ih (i + 1), show i + 1 + xs.length = i + (xs.length + 1) by omega]

theorem xorAt_phase (key : Bytes) (l : Bytes) :
    ∀ i j, i % 4 = j % 4 → xorAt key i l = xorAt key j l := by
  induction l with
  | nil => intro i j _; rfl
  | cons x xs ih =>
    intro i j h
    simp only [xorAt, h]
    rw [ih (i + 1) (j + 1) (by omega)]

theorem xorAt_getElem? (key : Bytes) (l : Bytes) :
    ∀ i j, (xorAt key i l)[j]? = (l[j]?).map (fun x => x ^^^ key.getD ((i + j) % 4) 0) := by
  induction l with
  | nil => intro i j; simp [xorAt]
  | cons x xs ih =>
    intro i j
    cases j with
    | zero => simp [xorAt]
    | succ j =>
      simp only [xorAt, List.getElem?_cons_succ, ih]
      rw [show i + 1 + j = i + (j + 1) by omega]

theorem xorAt_cons4 (k0 k1 k2 k3 : Nat) (kt : Bytes) (a b c d : Nat) (w : Bytes) :
    xorAt (k0 :: k1 :: k2 :: k3 :: kt) 0 (a :: b :: c :: d :: w)
      = (a ^^^ k0) :: (b ^^^ k1) :: (c ^^^ k2) :: (d ^^^ k3)
          :: xorAt (k0 :: k1 :: k2 :: k3 :: kt) 0 w := by
  simp only [xorAt]
  rw [xorAt_phase _ w (0 + 1 + 1 + 1 + 1) 0 (by norm_num)]
  rfl

theorem xorAt_isBytes (key : Bytes) (hk : IsBytes key) (l : Bytes) (hl : IsBytes l) :
    ∀ i, IsBytes (xorAt key i l) := by
  induction l with
  | nil => intro i x hx; simp [xorAt] at hx
  | cons y ys ih =>
    intro i x hx
    simp only [xorAt, List.mem_cons] at hx
    have hy : y < 2 ^ 8 := hl y (List.mem_cons_self _ _)
    have hys : IsBytes ys := fun z hz => hl z (List.mem_cons_of_mem _ hz)
    rcases hx with rfl | hx
    · have hkk : key.getD (i % 4) 0 < 2 ^ 8 := by
        rw [List.getD_eq_getElem?_getD]
        cases hq : key[i % 4]? with
        | none => simp
        | some v => simpa using hk v (List.getElem?_mem hq)
      simpa using Nat.xor_lt_two_pow hy hkk
    · exact ih hys (i + 1) x hx

theorem IsBytes.take {b : Bytes} (h : IsBytes b) (n : Nat) : IsBytes (b.take n) :=
  fun x hx => h x (List.mem_of_mem_take hx)

theorem IsBytes.drop {b : Bytes} (h : IsBytes b) (n : Nat) : IsBytes (b.drop n) :=
  fun x hx => h x (List.mem_of_mem_drop hx)

theorem maskPre_zero (key b : Bytes) : maskPre key 0 b = b := by
  simp [maskPre, xorAt]

theorem maskPre_length (key : Bytes) (n : Nat) (b : Bytes) :
    (maskPre key n b).length = b.length := by
  simp [maskPre, xorAt_length]; omega

theorem maskPre_take (key : Bytes) (n : Nat) (b : Bytes) (h : n ≤ b.length) :
    (maskPre key n b).take n = xorAt key 0 (b.take n) := by
  have hl : (xorAt key 0 (b.take n)).length = n := by simp [xorAt_length, h]
  unfold maskPre
  rw [List.take_append_of_le_length (by omega), List.take_of_length_le (by omega)]

theorem maskPre_drop (key : Bytes) (n : Nat) (b : Bytes) (h : n ≤ b.length) :
    (maskPre key n b).drop n = b.drop n := by
  have hl : (xorAt key 0 (b.take n)).length = n := by simp [xorAt_length, h]
  unfold maskPre
  rw [List.drop_append_eq_append_drop, List.drop_of_length_le (by omega), hl]
  simp

theorem maskPre_drop_ge (key : Bytes) (lo hi : Nat) (b : Bytes) (h : lo ≤ hi)
    (hh : hi ≤ b.length) : (maskPre key lo b).drop hi = b.drop hi := by
  have e : hi = lo + (hi - lo) := by omega
  rw [e, ← List.drop_drop, maskPre_drop key lo b (by omega), List.drop_drop]

theorem maskPre_step (key : Bytes) (lo hi : Nat) (b : Bytes) (hlo : lo % 4 = 0)
    (h : lo ≤ hi) (hh : hi ≤ b.length) :
    maskPre key hi b
      = xorAt key 0 (b.take lo) ++ xorAt key 0 ((b.drop lo).take (hi - lo)) ++ b.drop hi := by
  have e : b.take hi = b.take lo ++ (b.drop lo).take (hi - lo) := by
    conv_lhs => rw [show hi = lo + (hi - lo) by omega]
    rw [List.take_add]
  have hl : (b.take lo).length = lo := by simp; omega
  unfold maskPre
  rw [e, xorAt_append, hl]
  rw [xorAt_phase key _ (0 + lo) 0 (by omega)]

/-- One load-xor-store step moves the masked prefix from `lo` to `hi`. -/
theorem onSlice_maskPre (key : Bytes) (f : Bytes → Option Bytes) (lo hi : Nat)
    (d c : Bytes) (lg : List Blk) (hlo : lo % 4 = 0) (hle : lo ≤ hi) (hhi : hi ≤ c.length)
    (hf : f ((c.drop lo).take (hi - lo)) = some (xorAt key 0 ((c.drop lo).take (hi - lo)))) :
    onSlice lo hi f (Buf.mk d (maskPre key lo c) lg)
      = Except.ok (Buf.mk d (maskPre key hi c) lg) := by
  have hs : slice (maskPre key lo c) lo hi = some ((c.drop lo).take (hi - lo)) := by
    unfold slice
    rw [maskPre_length, if_pos ⟨hle, hhi⟩, maskPre_drop key lo c (by omega)]
  unfold onSlice
  simp only [hs, orPanic_some, ok_bind, hf]
  show Except.ok _ = Except.ok _
  congr 2
  unfold splice
  rw [maskPre_take key lo c (by omega), maskPre_drop_ge key lo hi c hle hhi,
    maskPre_step key lo hi c hlo hle hhi]

/-! ## The load-xor-store steps -/

theorem exists_cons4 (w : Bytes) (h : 4 ≤ w.length) :
    ∃ a b c d w2, w = a :: b :: c :: d :: w2 := by
  rcases w with _ | ⟨a, _ | ⟨b, _ | ⟨c, _ | ⟨d, w2⟩⟩⟩⟩
  · simp at h
  · simp at h
  · simp at h
  · simp at h
  · exact ⟨a, b, c, d, w2, rfl⟩

theorem leUint32_key (k0 k1 k2 k3 : Nat) (kt : Bytes) :
    leUint32 (k0 :: k1 :: k2 :: k3 :: kt)
      = some (k0 ||| (k1 <<< 8) ||| (k2 <<< 16) ||| (k3 <<< 24)) := rfl

theorem word32_spec (k0 k1 k2 k3 : Nat) (kt : Bytes) (h0 : k0 < 256) (h1 : k1 < 256)
    (h2 : k2 < 256) (h3 : k3 < 256) (w : Bytes) (hw : w.length = 4) (hb : IsBytes w) :
    (leUint32 w).bind (fun v => lePutUint32 w
        (v ^^^ (k0 ||| (k1 <<< 8) ||| (k2 <<< 16) ||| (k3 <<< 24))))
      = some (xorAt (k0 :: k1 :: k2 :: k3 :: kt) 0 w) := by
  obtain ⟨x0, x1, x2, x3, w2, rfl⟩ := exists_cons4 w (by omega)
  have hnil : w2 = [] := by
    simpa using hw
  subst hnil
  have hx0 : x0 < 256 := hb x0 (by simp)
  have hx1 : x1 < 256 := hb x1 (by simp)
  have hx2 : x2 < 256 := hb x2 (by simp)
  have hx3 : x3 < 256 := hb x3 (by simp)
  simp only [leUint32, Option.some_bind, lePutUint32, List.length_cons, List.length_nil]
  rw [if_pos (by norm_num), bytes4_xor, bytes4_le32 x0 x1 x2 x3 hx0 hx1 hx2 hx3,
    bytes4_le32 k0 k1 k2 k3 h0 h1 h2 h3, xorAt_cons4]
  rfl

theorem word64_spec (k0 k1 k2 k3 : Nat) (kt : Bytes) (h0 : k0 < 256) (h1 : k1 < 256)
    (h2 : k2 < 256) (h3 : k3 < 256) (w : Bytes) (hw : w.length = 8) (hb : IsBytes w) :
    (leUint64 w).bind (fun v => lePutUint64 w
        (v ^^^ mkKey64 (k0 ||| (k1 <<< 8) ||| (k2 <<< 16) ||| (k3 <<< 24))))
      = some (xorAt (k0 :: k1 :: k2 :: k3 :: kt) 0 w) := by
  obtain ⟨x0, x1, x2, x3, w2, rfl⟩ := exists_cons4 w (by omega)
  obtain ⟨x4, x5, x6, x7, w3, rfl⟩ := exists_cons4 w2 (by simp at hw; omega)
  have hnil : w3 = [] := by
    simpa using hw
  subst hnil
  have hx0 : x0 < 256 := hb x0 (by simp)
  have hx1 : x1 < 256 := hb x1 (by simp)
  have hx2 : x2 < 256 := hb x2 (by simp)
  have hx3 : x3 < 256 := hb x3 (by simp)
  have hx4 : x4 < 256 := hb x4 (by simp)
  have hx5 : x5 < 256 := hb x5 (by simp)
  have hx6 : x6 < 256 := hb x6 (by simp)
  have hx7 : x7 < 256 := hb x7 (by simp)
  simp only [leUint64, Option.some_bind, lePutUint64, List.length_cons, List.length_nil]
  rw [if_pos (by norm_num), bytes8_xor,
    bytes8_le64 x0 x1 x2 x3 x4 x5 x6 x7 hx0 hx1 hx2 hx3 hx4 hx5 hx6 hx7,
    bytes8_mkKey64 k0 k1 k2 k3 h0 h1 h2 h3, xorAt_cons4, xorAt_cons4]
  rfl

theorem xorLanes_tile (k0 k1 k2 k3 : Nat) (kt : Bytes) :
    ∀ (m : Nat) (w : Bytes), w.length = 4 * m →
      xorLanes w (tileOf k0 k1 k2 k3 m) = xorAt (k0 :: k1 :: k2 :: k3 :: kt) 0 w := by
  intro m
  induction m with
  | zero =>
    intro w hw
    have : w = [] := List.eq_nil_of_length_eq_zero (by omega)
    subst this
    rfl
  | succ m ih =>
    intro w hw
    obtain ⟨a, b, c, d, w2, rfl⟩ := exists_cons4 w (by omega)
    have hw2 : w2.length = 4 * m := by simp at hw; omega
    rw [xorAt_cons4, ← ih w2 hw2]
    rfl

theorem tileOf_length (k0 k1 k2 k3 : Nat) : ∀ m, (tileOf k0 k1 k2 k3 m).length = 4 * m := by
  intro m
  induction m with
  | zero => rfl
  | succ m ih => simp [tileOf, ih]; omega

theorem vec_spec (k0 k1 k2 k3 : Nat) (kt : Bytes) (m : Nat) (w : Bytes)
    (hw : w.length = 4 * m) :
    (loadLanes (4 * m) w).bind (fun v => storeLanes (xorLanes v (tileOf k0 k1 k2 k3 m)) w)
      = some (xorAt (k0 :: k1 :: k2 :: k3 :: kt) 0 w) := by
  have ht : w.take (4 * m) = w := List.take_of_length_le (by omega)
  have hl : (xorAt (k0 :: k1 :: k2 :: k3 :: kt) 0 w).length = w.length := xorAt_length _ _ _
  unfold loadLanes
  rw [if_pos (by omega), Option.some_bind, ht, xorLanes_tile k0 k1 k2 k3 kt m w hw]
  unfold storeLanes
  rw [if_pos (by omega), hl, List.drop_of_length_le (by omega), List.append_nil]

theorem key128Bytes_eq (k0 k1 k2 k3 : Nat) (h0 : k0 < 256) (h1 : k1 < 256) (h2 : k2 < 256)
    (h3 : k3 < 256) :
    key128Bytes (mkKey64 (k0 ||| (k1 <<< 8) ||| (k2 <<< 16) ||| (k3 <<< 24)))
      = some (tileOf k0 k1 k2 k3 4) := by
  simp [key128Bytes, slice, splice, lePutUint64, bytes8_mkKey64 k0 k1 k2 k3 h0 h1 h2 h3,
    tileOf]

theorem key256Bytes_eq (k0 k1 k2 k3 : Nat) (h0 : k0 < 256) (h1 : k1 < 256) (h2 : k2 < 256)
    (h3 : k3 < 256) :
    key256Bytes (mkKey64 (k0 ||| (k1 <<< 8) ||| (k2 <<< 16) ||| (k3 <<< 24)))
      = some (tileOf k0 k1 k2 k3 8) := by
  simp [key256Bytes, slice, splice, lePutUint64, bytes8_mkKey64 k0 k1 k2 k3 h0 h1 h2 h3,
    tileOf]

theorem length_take_drop (c : Bytes) (lo n : Nat) (h : lo + n ≤ c.length) :
    ((c.drop lo).take n).length = n := by
  simp; omega

theorem xor64At_maskPre (k0 k1 k2 k3 : Nat) (kt : Bytes) (h0 : k0 < 256) (h1 : k1 < 256)
    (h2 : k2 < 256) (h3 : k3 < 256) (lo hi : Nat) (d c : Bytes) (lg : List Blk)
    (hlo : lo % 4 = 0) (hh : hi = lo + 8) (hhi : hi ≤ c.length) (hb : IsBytes c) :
    xor64At (mkKey64 (k0 ||| (k1 <<< 8) ||| (k2 <<< 16) ||| (k3 <<< 24))) lo hi
        (Buf.mk d (maskPre (k0 :: k1 :: k2 :: k3 :: kt) lo c) lg)
      = Except.ok (Buf.mk d (maskPre (k0 :: k1 :: k2 :: k3 :: kt) hi c) lg) := by
  subst hh
  unfold xor64At
  apply onSlice_maskPre _ _ lo (lo + 8) d c lg hlo (by omega) hhi
  rw [show lo + 8 - lo = 8 by omega]
  exact word64_spec k0 k1 k2 k3 kt h0 h1 h2 h3 _ (length_take_drop c lo 8 hhi)
    ((hb.drop lo).take 8)

theorem xor32At_maskPre (k0 k1 k2 k3 : Nat) (kt : Bytes) (h0 : k0 < 256) (h1 : k1 < 256)
    (h2 : k2 < 256) (h3 : k3 < 256) (lo hi : Nat) (d c : Bytes) (lg : List Blk)
    (hlo : lo % 4 = 0) (hh : hi = lo + 4) (hhi : hi ≤ c.length) (hb : IsBytes c) :
    xor32At (k0 ||| (k1 <<< 8) ||| (k2 <<< 16) ||| (k3 <<< 24)) lo hi
        (Buf.mk d (maskPre (k0 :: k1 :: k2 :: k3 :: kt) lo c) lg)
      = Except.ok (Buf.mk d (maskPre (k0 :: k1 :: k2 :: k3 :: kt) hi c) lg) := by
  subst hh
  unfold xor32At
  apply onSlice_maskPre _ _ lo (lo + 4) d c lg hlo (by omega) hhi
  rw [show lo + 4 - lo = 4 by omega]
  exact word32_spec k0 k1 k2 k3 kt h0 h1 h2 h3 _ (length_take_drop c lo 4 hhi)
    ((hb.drop lo).take 4)

theorem xorVecAt_maskPre (k0 k1 k2 k3 : Nat) (kt : Bytes) (m n lo hi : Nat) (d c : Bytes)
    (lg : List Blk) (hlo : lo % 4 = 0) (hn : n = 4 * m) (hh : hi = lo + 4 * m)
    (hhi : hi ≤ c.length) :
    xorVecAt n (tileOf k0 k1 k2 k3 m) lo hi
        (Buf.mk d (maskPre (k0 :: k1 :: k2 :: k3 :: kt) lo c) lg)
      = Except.ok (Buf.mk d (maskPre (k0 :: k1 :: k2 :: k3 :: kt) hi c) lg) := by
  subst hn hh
  unfold xorVecAt
  apply onSlice_maskPre _ _ lo (lo + 4 * m) d c lg hlo (by omega) hhi
  rw [show lo + 4 * m - lo = 4 * m by omega]
  exact vec_spec k0 k1 k2 k3 kt m _ (length_take_drop c lo (4 * m) hhi)

theorem reslice_maskPre (key : Bytes) (n : Nat) (d c : Bytes) (lg : List Blk)
    (hn : n ≤ c.length) :
    reslice n (Buf.mk d (maskPre key n c) lg)
      = Except.ok (Buf.mk (d ++ xorAt key 0 (c.take n)) (c.drop n) lg) := by
  unfold reslice
  simp only [maskPre_length]
  rw [if_pos hn, maskPre_take key n c hn, maskPre_drop key n c hn]

/-! ## The cascade -/

theorem GoodKey.cases {key : Bytes} (hk : GoodKey key) :
    ∃ k0 k1 k2 k3 kt, key = k0 :: k1 :: k2 :: k3 :: kt
      ∧ k0 < 256 ∧ k1 < 256 ∧ k2 < 256 ∧ k3 < 256 := by
  obtain ⟨hl, hb⟩ := hk
  obtain ⟨k0, k1, k2, k3, kt, rfl⟩ := exists_cons4 key hl
  exact ⟨k0, k1, k2, k3, kt, rfl, hb k0 (by simp), hb k1 (by simp), hb k2 (by simp),
    hb k3 (by simp)⟩

theorem goodKey_of_length (key : Bytes) (hl : key.length = 4) (hb : IsBytes key) :
    GoodKey key := ⟨by omega, hb.take 4⟩

theorem glue (key : Bytes) (n : Nat) (hn : n % 4 = 0) (d c : Bytes) :
    (d ++ xorAt key 0 (c.take n)) ++ xorAt key 0 (c.drop n) = d ++ xorAt key 0 c := by
  rw [List.append_assoc]
  congr 1
  conv_rhs => rw [← List.take_append_drop n c, xorAt_append]
  by_cases h : n ≤ c.length
  · rw [List.length_take, Nat.min_eq_left h, xorAt_phase key _ (0 + n) 0 (by omega)]
  · rw [List.drop_of_length_le (by omega)]
    rfl

theorem observe_ret_or (key : Bytes) (s : Buf) (next : Buf → Except Fault Buf)
    (h : s.cur.length ≠ 0 → observe (next s) = Except.ok (s.done ++ xorAt key 0 s.cur)) :
    observe (if s.cur.length = 0 then pure s else next s)
      = Except.ok (s.done ++ xorAt key 0 s.cur) := by
  by_cases h0 : s.cur.length = 0
  · rw [if_pos h0]
    have : s.cur = [] := List.eq_nil_of_length_eq_zero h0
    show Except.ok (s.done ++ s.cur) = _
    rw [this]
    rfl
  · rw [if_neg h0]
    exact h h0

theorem tailBytes_spec (key : Bytes) (hk : GoodKey key) (d c : Bytes) (lg : List Blk)
    (hc : c.length < 4) :
    observe (tailBytes key (Buf.mk d c lg)) = Except.ok (d ++ xorAt key 0 c) := by
  obtain ⟨k0, k1, k2, k3, kt, rfl, -, -, -, -⟩ := hk.cases
  rcases c with _ | ⟨x, _ | ⟨y, _ | ⟨z, _ | ⟨u, c⟩⟩⟩⟩
  · rfl
  · rfl
  · rfl
  · rfl
  · simp at hc
    omega

theorem step4_spec (key : Bytes) (key32 : Nat) (hk : GoodKey key)
    (h32 : leUint32 key = some key32) (d c : Bytes) (lg : List Blk) (hb : IsBytes c)
    (hc : c.length < 8) :
    observe (step4 key key32 (Buf.mk d c lg)) = Except.ok (d ++ xorAt key 0 c) := by
  obtain ⟨k0, k1, k2, k3, kt, rfl, h0, h1, h2, h3⟩ := hk.cases
  rw [leUint32_key] at h32
  cases h32
  unfold step4
  by_cases h : 4 ≤ c.length
  · have e0 := xor32At_maskPre k0 k1 k2 k3 kt h0 h1 h2 h3 0 4 d c lg rfl rfl h hb
    rw [maskPre_zero] at e0
    simp only [h, if_true, e0, ok_bind, reslice_maskPre _ 4 d c lg h, logBlk]
    rw [← glue _ 4 rfl d c]
    refine observe_ret_or _ (Buf.mk _ _ _) (tailBytes _) (fun _ => ?_)
    exact tailBytes_spec _ hk _ _ _ (by simp; omega)
  · simp only [h, if_false]
    exact tailBytes_spec _ hk _ _ _ (by omega)

theorem step8_spec (key : Bytes) (key32 : Nat) (hk : GoodKey key)
    (h32 : leUint32 key = some key32) (d c : Bytes) (lg : List Blk) (hb : IsBytes c)
    (hc : c.length < 16) :
    observe (step8 key key32 (mkKey64 key32) (Buf.mk d c lg))
      = Except.ok (d ++ xorAt key 0 c) := by
  obtain ⟨k0, k1, k2, k3, kt, rfl, h0, h1, h2, h3⟩ := hk.cases
  have h32c := h32
  rw [leUint32_key] at h32c
  cases h32c
  unfold step8
  by_cases h : 8 ≤ c.length
  · have e0 := xor64At_maskPre k0 k1 k2 k3 kt h0 h1 h2 h3 0 8 d c lg rfl rfl h hb
    rw [maskPre_zero] at e0
    simp only [h, if_true, e0, ok_bind, reslice_maskPre _ 8 d c lg h, logBlk]
    rw [← glue _ 8 rfl d c]
    refine observe_ret_or _ (Buf.mk _ _ _) (step4 _ _) (fun _ => ?_)
    exact step4_spec _ _ hk h32 _ _ _ (hb.drop 8) (by simp; omega)
  · simp only [h, if_false]
    exact step4_spec _ _ hk h32 _ _ _ hb (by omega)

theorem step16_spec (key : Bytes) (key32 : Nat) (hk : GoodKey key)
    (h32 : leUint32 key = some key32) (d c : Bytes) (lg : List Blk) (hb : IsBytes c)
    (hc : c.length < 32) :
    observe (step16 key key32 (mkKey64 key32) (Buf.mk d c lg))
      = Except.ok (d ++ xorAt key 0 c) := by
  obtain ⟨k0, k1, k2, k3, kt, rfl, h0, h1, h2, h3⟩ := hk.cases
  have h32c := h32
  rw [leUint32_key] at h32c
  cases h32c
  unfold step16
  by_cases h : 16 ≤ c.length
  · have e0 := xor64At_maskPre k0 k1 k2 k3 kt h0 h1 h2 h3 0 8 d c lg rfl rfl (by omega) hb
    have e1 := xor64At_maskPre k0 k1 k2 k3 kt h0 h1 h2 h3 8 16 d c lg rfl rfl (by omega) hb
    rw [maskPre_zero] at e0
    simp only [h, if_true, e0, e1, ok_bind, reslice_maskPre _ 16 d c lg h, logBlk]
    rw [← glue _ 16 rfl d c]
    refine observe_ret_or _ (Buf.mk _ _ _) (step8 _ _ _) (fun _ => ?_)
    exact step8_spec _ _ hk h32 _ _ _ (hb.drop 16) (by simp; omega)
  · simp only [h, if_false]
    exact step8_spec _ _ hk h32 _ _ _ hb (by omega)

theorem step32_spec (key : Bytes) (key32 : Nat) (hk : GoodKey key)
    (h32 : leUint32 key = some key32) (d c : Bytes) (lg : List Blk) (hb : IsBytes c)
    (hc : c.length < 64) :
    observe (step32 key key32 (mkKey64 key32) (Buf.mk d c lg))
      = Except.ok (d ++ xorAt key 0 c) := by
  obtain ⟨k0, k1, k2, k3, kt, rfl, h0, h1, h2, h3⟩ := hk.cases
  have h32c := h32
  rw [leUint32_key] at h32c
  cases h32c
  unfold step32
  by_cases h : 32 ≤ c.length
  · have e0 := xor64At_maskPre k0 k1 k2 k3 kt h0 h1 h2 h3 0 8 d c lg rfl rfl (by omega) hb
    have e1 := xor64At_maskPre k0 k1 k2 k3 kt h0 h1 h2 h3 8 16 d c lg rfl rfl (by omega) hb
    have e2 := xor64At_maskPre k0 k1 k2 k3 kt h0 h1 h2 h3 16 24 d c lg rfl rfl (by omega) hb
    have e3 := xor64At_maskPre k0 k1 k2 k3 kt h0 h1 h2 h3 24 32 d c lg rfl rfl (by omega) hb
    rw [maskPre_zero] at e0
    simp only [h, if_true, e0, e1, e2, e3, ok_bind, reslice_maskPre _ 32 d c lg h, logBlk]
    rw [← glue _ 32 rfl d c]
    refine observe_ret_or _ (Buf.mk _ _ _) (step16 _ _ _) (fun _ => ?_)
    exact step16_spec _ _ hk h32 _ _ _ (hb.drop 32) (by simp; omega)
  · simp only [h, if_false]
    exact step16_spec _ _ hk h32 _ _ _ hb (by omega)

/-! ## The loops -/

theorem loop_glue (key : Bytes) (n q : Nat) (hn : n % 4 = 0) (d c : Bytes)
    (lg : List Blk) (t : Blk) :
    Buf.mk ((d ++ xorAt key 0 (c.take n)) ++ xorAt key 0 ((c.drop n).take (q * n)))
        ((c.drop n).drop (q * n)) ((lg ++ [t]) ++ List.replicate q t)
      = Buf.mk (d ++ xorAt key 0 (c.take ((q + 1) * n))) (c.drop ((q + 1) * n))
          (lg ++ List.replicate (q + 1) t) := by
  have e1 : (q + 1) * n = n + q * n := by ring
  have e2 : (c.take (n + q * n)).take n = c.take n := by
    rw [List.take_take, Nat.min_eq_left (by omega)]
  have e3 : (c.take (n + q * n)).drop n = (c.drop n).take (q * n) := by
    rw [List.drop_take, show n + q * n - n = q * n by omega]
  have e4 : List.replicate (q + 1) t = [t] ++ List.replicate q t := by
    rw [List.replicate_succ]; rfl
  rw [e1, ← glue key n hn d (c.take (n + q * n)), e2, e3, List.drop_drop, e4,
    List.append_assoc lg, Nat.add_comm n (q * n)]

theorem loop_done (key : Bytes) (n : Nat) (d c : Bytes) (lg : List Blk) (t : Blk)
    (h : c.length < n) :
    Buf.mk d c lg
      = Buf.mk (d ++ xorAt key 0 (c.take (c.length / n * n))) (c.drop (c.length / n * n))
          (lg ++ List.replicate (c.length / n) t) := by
  have : c.length / n = 0 := Nat.div_eq_of_lt h
  simp [this, xorAt]

theorem div_drop (c : Bytes) (n : Nat) (hn : 0 < n) (h : n ≤ c.length) :
    c.length / n = (c.drop n).length / n + 1 := by
  rw [List.length_drop]
  have := Nat.sub_add_cancel h
  conv_lhs => rw [← this]
  exact Nat.add_div_right _ hn

theorem loop64_spec (key : Bytes) (key32 : Nat) (hk : GoodKey key)
    (h32 : leUint32 key = some key32) :
    ∀ (fuel : Nat) (d c : Bytes) (lg : List Blk), IsBytes c → c.length / 64 ≤ fuel →
      loop64 (mkKey64 key32) fuel (Buf.mk d c lg)
        = Except.ok (Buf.mk (d ++ xorAt key 0 (c.take (c.length / 64 * 64)))
            (c.drop (c.length / 64 * 64)) (lg ++ List.replicate (c.length / 64) Blk.w64x8)) := by
  obtain ⟨k0, k1, k2, k3, kt, rfl, h0, h1, h2, h3⟩ := hk.cases
  rw [leUint32_key] at h32
  cases h32
  intro fuel
  induction fuel with
  | zero =>
    intro d c lg _ hf
    have hlt : c.length < 64 := by omega
    unfold loop64
    rw [if_neg (by show ¬ 64 ≤ c.length; omega)]
    exact congrArg Except.ok (loop_done _ 64 d c lg _ hlt)
  | succ fuel ih =>
    intro d c lg hb hf
    unfold loop64
    by_cases h : 64 ≤ c.length
    · have hq := div_drop c 64 (by norm_num) h
      have e0 := xor64At_maskPre k0 k1 k2 k3 kt h0 h1 h2 h3 0 8 d c lg rfl rfl (by omega) hb
      have e1 := xor64At_maskPre k0 k1 k2 k3 kt h0 h1 h2 h3 8 16 d c lg rfl rfl (by omega) hb
      have e2 := xor64At_maskPre k0 k1 k2 k3 kt h0 h1 h2 h3 16 24 d c lg rfl rfl (by omega) hb
      have e3 := xor64At_maskPre k0 k1 k2 k3 kt h0 h1 h2 h3 24 32 d c lg rfl rfl (by omega) hb
      have e4 := xor64At_maskPre k0 k1 k2 k3 kt h0 h1 h2 h3 32 40 d c lg rfl rfl (by omega) hb
      have e5 := xor64At_maskPre k0 k1 k2 k3 kt h0 h1 h2 h3 40 48 d c lg rfl rfl (by omega) hb
      have e6 := xor64At_maskPre k0 k1 k2 k3 kt h0 h1 h2 h3 48 56 d c lg rfl rfl (by omega) hb
      have e7 := xor64At_maskPre k0 k1 k2 k3 kt h0 h1 h2 h3 56 64 d c lg rfl rfl (by omega) hb
      rw [maskPre_zero] at e0
      simp only [h, if_true, e0, e1, e2, e3, e4, e5, e6, e7, ok_bind,
        reslice_maskPre _ 64 d c lg h, logBlk]
      rw [ih _ _ _ (hb.drop 64) (by omega), hq]
      exact congrArg Except.ok (loop_glue _ 64 _ rfl d c lg _)
    · rw [if_neg h]
      exact congrArg Except.ok (loop_done _ 64 d c lg _ (by omega))

theorem loop128_spec (k0 k1 k2 k3 : Nat) (kt : Bytes) :
    ∀ (fuel : Nat) (d c : Bytes) (lg : List Blk), c.length / 128 ≤ fuel →
      loop128 (tileOf k0 k1 k2 k3 4) fuel (Buf.mk d c lg)
        = Except.ok (Buf.mk
            (d ++ xorAt (k0 :: k1 :: k2 :: k3 :: kt) 0 (c.take (c.length / 128 * 128)))
            (c.drop (c.length / 128 * 128))
            (lg ++ List.replicate (c.length / 128) Blk.v128)) := by
  intro fuel
  induction fuel with
  | zero =>
    intro d c lg hf
    have hlt : c.length < 128 := by omega
    unfold loop128
    rw [if_neg (by show ¬ 128 ≤ c.length; omega)]
    exact congrArg Except.ok (loop_done _ 128 d c lg _ hlt)
  | succ fuel ih =>
    intro d c lg hf
    unfold loop128
    by_cases h : 128 ≤ c.length
    · have hq := div_drop c 128 (by norm_num) h
      have e0 := xorVecAt_maskPre k0 k1 k2 k3 kt 4 16 0 16 d c lg rfl rfl rfl (by omega)
      have e1 := xorVecAt_maskPre k0 k1 k2 k3 kt 4 16 16 32 d c lg rfl rfl rfl (by omega)
      have e2 := xorVecAt_maskPre k0 k1 k2 k3 kt 4 16 32 48 d c lg rfl rfl rfl (by omega)
      have e3 := xorVecAt_maskPre k0 k1 k2 k3 kt 4 16 48 64 d c lg rfl rfl rfl (by omega)
      have e4 := xorVecAt_maskPre k0 k1 k2 k3 kt 4 16 64 80 d c lg rfl rfl rfl (by omega)
      have e5 := xorVecAt_maskPre k0 k1 k2 k3 kt 4 16 80 96 d c lg rfl rfl rfl (by omega)
      have e6 := xorVecAt_maskPre k0 k1 k2 k3 kt 4 16 96 112 d c lg rfl rfl rfl (by omega)
      have e7 := xorVecAt_maskPre k0 k1 k2 k3 kt 4 16 112 128 d c lg rfl rfl rfl (by omega)
      rw [maskPre_zero] at e0
      simp only [h, if_true, e0, e1, e2, e3, e4, e5, e6, e7, ok_bind,
        reslice_maskPre _ 128 d c lg h, logBlk]
      rw [ih _ _ _ (by omega), hq]
      exact congrArg Except.ok (loop_glue _ 128 _ rfl d c lg _)
    · rw [if_neg h]
      exact congrArg Except.ok (loop_done _ 128 d c lg _ (by omega))

theorem loop256_spec (k0 k1 k2 k3 : Nat) (kt : Bytes) :
    ∀ (fuel : Nat) (d c : Bytes) (lg : List Blk), c.length / 128 ≤ fuel →
      loop256 (tileOf k0 k1 k2 k3 8) fuel (Buf.mk d c lg)
        = Except.ok (Buf.mk
            (d ++ xorAt (k0 :: k1 :: k2 :: k3 :: kt) 0 (c.take (c.length / 128 * 128)))
            (c.drop (c.length / 128 * 128))
            (lg ++ List.replicate (c.length / 128) Blk.v256)) := by
  intro fuel
  induction fuel with
  | zero =>
    intro d c lg hf
    have hlt : c.length < 128 := by omega
    unfold loop256
    rw [if_neg (by show ¬ 128 ≤ c.length; omega)]
    exact congrArg Except.ok (loop_done _ 128 d c lg _ hlt)
  | succ fuel ih =>
    intro d c lg hf
    unfold loop256
    by_cases h : 128 ≤ c.length
    · have hq := div_drop c 128 (by norm_num) h
      have e0 := xorVecAt_maskPre k0 k1 k2 k3 kt 8 32 0 32 d c lg rfl rfl rfl (by omega)
      have e1 := xorVecAt_maskPre k0 k1 k2 k3 kt 8 32 32 64 d c lg rfl rfl rfl (by omega)
      have e2 := xorVecAt_maskPre k0 k1 k2 k3 kt 8 32 64 96 d c lg rfl rfl rfl (by omega)
      have e3 := xorVecAt_maskPre k0 k1 k2 k3 kt 8 32 96 128 d c lg rfl rfl rfl (by omega)
      rw [maskPre_zero] at e0
      simp only [h, if_true, e0, e1, e2, e3, ok_bind, reslice_maskPre _ 128 d c lg h, logBlk]
      rw [ih _ _ _ (by omega), hq]
      exact congrArg Except.ok (loop_glue _ 128 _ rfl d c lg _)
    · rw [if_neg h]
      exact congrArg Except.ok (loop_done _ 128 d c lg _ (by omega))

/-! ## The strategies compute the reference transform -/

theorem cascade_spec (key : Bytes) (key32 : Nat) (hk : GoodKey key)
    (h32 : leUint32 key = some key32) (d c : Bytes) (lg : List Blk) (hb : IsBytes c) :
    observe (cascade key key32 (mkKey64 key32) (Buf.mk d c lg))
      = Except.ok (d ++ xorAt key 0 c) := by
  unfold cascade
  rw [loop64_spec key key32 hk h32 c.length d c lg hb (Nat.div_le_self _ _), ok_bind]
  rw [← glue key (c.length / 64 * 64) (by omega) d c]
  refine observe_ret_or _ (Buf.mk _ _ _) (step32 _ _ _) (fun _ => ?_)
  refine step32_spec key key32 hk h32 _ _ _ (hb.drop _) ?_
  rw [List.length_drop]
  have := Nat.mod_lt c.length (show 0 < 64 by norm_num)
  have := Nat.div_add_mod c.length 64
  omega

theorem hybridFrom512_spec (key : Bytes) (key32 : Nat) (hk : GoodKey key)
    (h32 : leUint32 key = some key32) (d c : Bytes) (lg : List Blk) (hb : IsBytes c) :
    observe (hybridFrom512 key key32 (mkKey64 key32) (Buf.mk d c lg))
      = Except.ok (d ++ xorAt key 0 c) := by
  unfold hybridFrom512
  by_cases h : 512 ≤ c.length
  · obtain ⟨k0, k1, k2, k3, kt, rfl, h0, h1, h2, h3⟩ := hk.cases
    have h32c := h32
    rw [leUint32_key] at h32c
    cases h32c
    simp only [h, if_true, key128Bytes_eq k0 k1 k2 k3 h0 h1 h2 h3, orPanic_some, ok_bind]
    rw [loop128_spec k0 k1 k2 k3 kt c.length d c lg (Nat.div_le_self _ _), ok_bind]
    rw [← glue _ (c.length / 128 * 128) (by omega) d c]
    refine observe_ret_or _ (Buf.mk _ _ _) (cascade _ _ _) (fun _ => ?_)
    exact cascade_spec _ _ hk h32 _ _ _ (hb.drop _)
  · simp only [h, if_false]
    exact cascade_spec key key32 hk h32 d c lg hb

theorem leUint32_goodKey {key : Bytes} (hk : GoodKey key) : ∃ key32, leUint32 key = some key32 := by
  obtain ⟨k0, k1, k2, k3, kt, rfl, -, -, -, -⟩ := hk.cases
  exact ⟨_, rfl⟩

/-- The scalar strategy computes the reference transform. -/
theorem scalar_eq_xorAt (b key : Bytes) (hk : GoodKey key) (hb : IsBytes b) :
    MaskXOR_Original_Optimized b key = Except.ok (xorAt key 0 b) := by
  obtain ⟨key32, h32⟩ := leUint32_goodKey hk
  unfold MaskXOR_Original_Optimized MaskXOR_Original_Optimized_st
  simp only [h32, orPanic_some, ok_bind]
  exact cascade_spec key key32 hk h32 [] b [] hb

/-- The 128-bit strategy computes the reference transform. -/
theorem simd128_eq_xorAt (b key : Bytes) (hk : GoodKey key) (hb : IsBytes b) :
    MaskXOR_SIMD128 b key = Except.ok (xorAt key 0 b) := by
  obtain ⟨key32, h32⟩ := leUint32_goodKey hk
  unfold MaskXOR_SIMD128 MaskXOR_SIMD128_st
  simp only [h32, orPanic_some, ok_bind]
  exact hybridFrom512_spec key key32 hk h32 [] b [] hb

/-- The 256-bit strategy computes the reference transform. -/
theorem simd256_eq_xorAt (b key : Bytes) (hk : GoodKey key) (hb : IsBytes b) :
    MaskXOR_SIMD256 b key = Except.ok (xorAt key 0 b) := by
  obtain ⟨key32, h32⟩ := leUint32_goodKey hk
  unfold MaskXOR_SIMD256 MaskXOR_SIMD256_st
  simp only [h32, orPanic_some, ok_bind]
  by_cases h : 512 ≤ b.length
  · obtain ⟨k0, k1, k2, k3, kt, rfl, h0, h1, h2, h3⟩ := hk.cases
    have h32c := h32
    rw [leUint32_key] at h32c
    cases h32c
    simp only [h, if_true, key256Bytes_eq k0 k1 k2 k3 h0 h1 h2 h3, orPanic_some, ok_bind]
    rw [loop256_spec k0 k1 k2 k3 kt b.length [] b [] (Nat.div_le_self _ _), ok_bind]
    rw [← List.nil_append (xorAt _ 0 b), ← glue _ (b.length / 128 * 128) (by omega) [] b]
    refine observe_ret_or _ (Buf.mk _ _ _) (cascade _ _ _) (fun _ => ?_)
    exact cascade_spec _ _ hk h32 _ _ _ (hb.drop _)
  · simp only [h, if_false]
    exact cascade_spec key key32 hk h32 [] b [] hb

/-- The hybrid strategy computes the reference transform. -/
theorem hybrid_eq_xorAt (b key : Bytes) (hk : GoodKey key) (hb : IsBytes b) :
    MaskXOR_SIMD256_128 b key = Except.ok (xorAt key 0 b) := by
  obtain ⟨key32, h32⟩ := leUint32_goodKey hk
  unfold MaskXOR_SIMD256_128 MaskXOR_SIMD256_128_st
  simp only [h32, orPanic_some, ok_bind]
  by_cases h : 4096 ≤ b.length
  · obtain ⟨k0, k1, k2, k3, kt, rfl, h0, h1, h2, h3⟩ := hk.cases
    have h32c := h32
    rw [leUint32_key] at h32c
    cases h32c
    simp only [h, if_true, key256Bytes_eq k0 k1 k2 k3 h0 h1 h2 h3, orPanic_some, ok_bind]
    rw [loop256_spec k0 k1 k2 k3 kt b.length [] b [] (Nat.div_le_self _ _), ok_bind]
    rw [← List.nil_append (xorAt _ 0 b), ← glue _ (b.length / 128 * 128) (by omega) [] b]
    refine observe_ret_or _ (Buf.mk _ _ _) (hybridFrom512 _ _ _) (fun _ => ?_)
    exact hybridFrom512_spec _ _ hk h32 _ _ _ (hb.drop _)
  · simp only [h, if_false]
    exact hybridFrom512_spec key key32 hk h32 [] b [] hb

/-! ## Claims -/

theorem benchBuf_isBytes (n : Nat) : IsBytes (benchBuf n) := by
  intro x hx
  simp only [benchBuf, List.mem_map] at hx
  obtain ⟨i, -, rfl⟩ := hx
  omega

theorem benchBuf_length (n : Nat) : (benchBuf n).length = n := by
  simp [benchBuf]

theorem benchKey_isBytes : IsBytes benchKey := by decide

theorem xorAt_get (key b : Bytes) (hk : key.length = 4) (i x : Nat) (hx : b[i]? = some x) :
    ∃ k, key[i % 4]? = some k ∧ (xorAt key 0 b)[i]? = some (x ^^^ k) := by
  have hlt : i % 4 < key.length := by omega
  refine ⟨key[i % 4], List.getElem?_eq_getElem hlt, ?_⟩
  rw [xorAt_getElem?, hx, Nat.zero_add, List.getD_eq_getElem?_getD,
    List.getElem?_eq_getElem hlt]
  rfl

theorem xorAt_invol (key : Bytes) (l : Bytes) : ∀ i, xorAt key i (xorAt key i l) = l := by
  induction l with
  | nil => intro i; rfl
  | cons x xs ih =>
    intro i
    simp only [xorAt, ih]
    rw [Nat.xor_assoc, Nat.xor_self, Nat.xor_zero]

/-- C1: for every byte buffer `b` (of any length, 0 included) and every key of exactly four
bytes, `MaskXOR_Original_Optimized` returns normally and leaves a buffer `r` of the same
length whose byte at every index `i` is `b[i] XOR key[i mod 4]`. -/
theorem C1_scalar_masks_every_byte (b key : Bytes) (hb : IsBytes b) (hk : key.length = 4)
    (hkb : IsBytes key) :
    ∃ r, MaskXOR_Original_Optimized b key = Except.ok r ∧ r.length = b.length ∧
      ∀ i x, b[i]? = some x → ∃ k, key[i % 4]? = some k ∧ r[i]? = some (x ^^^ k) :=
  ⟨xorAt key 0 b, scalar_eq_xorAt b key (goodKey_of_length key hk hkb) hb,
    xorAt_length key b 0, fun i x hx => xorAt_get key b hk i x hx⟩

/-- C1 at the 67-byte benchmark buffer and the benchmark key `[1,2,3,4]`. -/
theorem C1_scalar_masks_every_byte_witness :
    IsBytes (benchBuf 67) ∧ benchKey.length = 4 ∧ IsBytes benchKey ∧
    ∃ r, MaskXOR_Original_Optimized (benchBuf 67) benchKey = Except.ok r ∧
      r.length = (benchBuf 67).length ∧
      ∀ i x, (benchBuf 67)[i]? = some x →
        ∃ k, benchKey[i % 4]? = some k ∧ r[i]? = some (x ^^^ k) :=
  ⟨benchBuf_isBytes 67, rfl, benchKey_isBytes,
    C1_scalar_masks_every_byte (benchBuf 67) benchKey (benchBuf_isBytes 67) rfl
      benchKey_isBytes⟩

/-- C2: for every byte buffer and every four-byte key, `MaskXOR_SIMD128` (128-bit XOR taken
lane-wise over 16 byte lanes) returns normally with exactly the buffer that
`MaskXOR_Original_Optimized` produces; the lengths 511, 512 and 513 around the switch to the
vector loop are instances. -/
theorem C2_simd128_equals_scalar (b key : Bytes) (hb : IsBytes b) (hk : key.length = 4)
    (hkb : IsBytes key) :
    ∃ r, MaskXOR_SIMD128 b key = Except.ok r ∧ MaskXOR_Original_Optimized b key = Except.ok r :=
  ⟨xorAt key 0 b, simd128_eq_xorAt b key (goodKey_of_length key hk hkb) hb,
    scalar_eq_xorAt b key (goodKey_of_length key hk hkb) hb⟩

/-- C2 at the benchmark buffers of 511, 512 and 513 bytes. -/
theorem C2_simd128_equals_scalar_witness :
    (IsBytes (benchBuf 511) ∧ IsBytes (benchBuf 512) ∧ IsBytes (benchBuf 513)) ∧
    benchKey.length = 4 ∧ IsBytes benchKey ∧
    (∃ r, MaskXOR_SIMD128 (benchBuf 511) benchKey = Except.ok r ∧
      MaskXOR_Original_Optimized (benchBuf 511) benchKey = Except.ok r) ∧
    (∃ r, MaskXOR_SIMD128 (benchBuf 512) benchKey = Except.ok r ∧
      MaskXOR_Original_Optimized (benchBuf 512) benchKey = Except.ok r) ∧
    (∃ r, MaskXOR_SIMD128 (benchBuf 513) benchKey = Except.ok r ∧
      MaskXOR_Original_Optimized (benchBuf 513) benchKey = Except.ok r) :=
  ⟨⟨benchBuf_isBytes 511, benchBuf_isBytes 512, benchBuf_isBytes 513⟩, rfl, benchKey_isBytes,
    C2_simd128_equals_scalar _ _ (benchBuf_isBytes 511) rfl benchKey_isBytes,
    C2_simd128_equals_scalar _ _ (benchBuf_isBytes 512) rfl benchKey_isBytes,
    C2_simd128_equals_scalar _ _ (benchBuf_isBytes 513) rfl benchKey_isBytes⟩

/-- C3: for every byte buffer and every four-byte key, `MaskXOR_SIMD256` (256-bit XOR taken
lane-wise over 32 byte lanes) returns normally with exactly the buffer that
`MaskXOR_Original_Optimized` produces; the lengths 511, 512 and 513 around the switch to the
vector loop are instances. -/
theorem C3_simd256_equals_scalar (b key : Bytes) (hb : IsBytes b) (hk : key.length = 4)
    (hkb : IsBytes key) :
    ∃ r, MaskXOR_SIMD256 b key = Except.ok r ∧ MaskXOR_Original_Optimized b key = Except.ok r :=
  ⟨xorAt key 0 b, simd256_eq_xorAt b key (goodKey_of_length key hk hkb) hb,
    scalar_eq_xorAt b key (goodKey_of_length key hk hkb) hb⟩

/-- C3 at the benchmark buffers of 511, 512 and 513 bytes. -/
theorem C3_simd256_equals_scalar_witness :
    (IsBytes (benchBuf 511) ∧ IsBytes (benchBuf 512) ∧ IsBytes (benchBuf 513)) ∧
    benchKey.length = 4 ∧ IsBytes benchKey ∧
    (∃ r, MaskXOR_SIMD256 (benchBuf 511) benchKey = Except.ok r ∧
      MaskXOR_Original_Optimized (benchBuf 511) benchKey = Except.ok r) ∧
    (∃ r, MaskXOR_SIMD256 (benchBuf 512) benchKey = Except.ok r ∧
      MaskXOR_Original_Optimized (benchBuf 512) benchKey = Except.ok r) ∧
    (∃ r, MaskXOR_SIMD256 (benchBuf 513) benchKey = Except.ok r ∧
      MaskXOR_Original_Optimized (benchBuf 513) benchKey = Except.ok r) :=
  ⟨⟨benchBuf_isBytes 511, benchBuf_isBytes 512, benchBuf_isBytes 513⟩, rfl, benchKey_isBytes,
    C3_simd256_equals_scalar _ _ (benchBuf_isBytes 511) rfl benchKey_isBytes,
    C3_simd256_equals_scalar _ _ (benchBuf_isBytes 512) rfl benchKey_isBytes,
    C3_simd256_equals_scalar _ _ (benchBuf_isBytes 513) rfl benchKey_isBytes⟩

/-- C4: for every byte buffer and every four-byte key, the hybrid `MaskXOR_SIMD256_128`
returns normally with exactly the buffer that `MaskXOR_Original_Optimized` produces; the
lengths 511, 512, 513 and 4095, 4096, 4097, where its decision ladder switches branches, are
instances. -/
theorem C4_hybrid_equals_scalar (b key : Bytes) (hb : IsBytes b) (hk : key.length = 4)
    (hkb : IsBytes key) :
    ∃ r, MaskXOR_SIMD256_128 b key = Except.ok r ∧
      MaskXOR_Original_Optimized b key = Except.ok r :=
  ⟨xorAt key 0 b, hybrid_eq_xorAt b key (goodKey_of_length key hk hkb) hb,
    scalar_eq_xorAt b key (goodKey_of_length key hk hkb) hb⟩

/-- C4 at the benchmark buffers of 511, 512, 513, 4095, 4096 and 4097 bytes. -/
theorem C4_hybrid_equals_scalar_witness :
    (IsBytes (benchBuf 511) ∧ IsBytes (benchBuf 512) ∧ IsBytes (benchBuf 513) ∧
      IsBytes (benchBuf 4095) ∧ IsBytes (benchBuf 4096) ∧ IsBytes (benchBuf 4097)) ∧
    benchKey.length = 4 ∧ IsBytes benchKey ∧
    (∃ r, MaskXOR_SIMD256_128 (benchBuf 511) benchKey = Except.ok r ∧
      MaskXOR_Original_Optimized (benchBuf 511) benchKey = Except.ok r) ∧
    (∃ r, MaskXOR_SIMD256_128 (benchBuf 512) benchKey = Except.ok r ∧
      MaskXOR_Original_Optimized (benchBuf 512) benchKey = Except.ok r) ∧
    (∃ r, MaskXOR_SIMD256_128 (benchBuf 513) benchKey = Except.ok r ∧
      MaskXOR_Original_Optimized (benchBuf 513) benchKey = Except.ok r) ∧
    (∃ r, MaskXOR_SIMD256_128 (benchBuf 4095) benchKey = Except.ok r ∧
      MaskXOR_Original_Optimized (benchBuf 4095) benchKey = Except.ok r) ∧
    (∃ r, MaskXOR_SIMD256_128 (benchBuf 4096) benchKey = Except.ok r ∧
      MaskXOR_Original_Optimized (benchBuf 4096) benchKey = Except.ok r) ∧
    (∃ r, MaskXOR_SIMD256_128 (benchBuf 4097) benchKey = Except.ok r ∧
      MaskXOR_Original_Optimized (benchBuf 4097) benchKey = Except.ok r) :=
  ⟨⟨benchBuf_isBytes 511, benchBuf_isBytes 512, benchBuf_isBytes 513, benchBuf_isBytes 4095,
      benchBuf_isBytes 4096, benchBuf_isBytes 4097⟩, rfl, benchKey_isBytes,
    C4_hybrid_equals_scalar _ _ (benchBuf_isBytes 511) rfl benchKey_isBytes,
    C4_hybrid_equals_scalar _ _ (benchBuf_isBytes 512) rfl benchKey_isBytes,
    C4_hybrid_equals_scalar _ _ (benchBuf_isBytes 513) rfl benchKey_isBytes,
    C4_hybrid_equals_scalar _ _ (benchBuf_isBytes 4095) rfl benchKey_isBytes,
    C4_hybrid_equals_scalar _ _ (benchBuf_isBytes 4096) rfl benchKey_isBytes,
    C4_hybrid_equals_scalar _ _ (benchBuf_isBytes 4097) rfl benchKey_isBytes⟩

/-- C5: for every byte buffer `B` (the empty one included) and every four-byte key `K`,
each of the four strategies applied twice with `K` restores `B`: the first call returns
some buffer `r` and the second call on `r` returns `B`. -/
theorem C5_mask_twice_restores (b key : Bytes) (hb : IsBytes b) (hk : key.length = 4)
    (hkb : IsBytes key) :
    (∃ r, MaskXOR_Original_Optimized b key = Except.ok r ∧
      MaskXOR_Original_Optimized r key = Except.ok b) ∧
    (∃ r, MaskXOR_SIMD128 b key = Except.ok r ∧ MaskXOR_SIMD128 r key = Except.ok b) ∧
    (∃ r, MaskXOR_SIMD256 b key = Except.ok r ∧ MaskXOR_SIMD256 r key = Except.ok b) ∧
    (∃ r, MaskXOR_SIMD256_128 b key = Except.ok r ∧
      MaskXOR_SIMD256_128 r key = Except.ok b) := by
  have gk := goodKey_of_length key hk hkb
  have hr : IsBytes (xorAt key 0 b) := xorAt_isBytes key hkb b hb 0
  have inv := xorAt_invol key b 0
  refine ⟨⟨_, scalar_eq_xorAt b key gk hb, ?_⟩, ⟨_, simd128_eq_xorAt b key gk hb, ?_⟩,
    ⟨_, simd256_eq_xorAt b key gk hb, ?_⟩, ⟨_, hybrid_eq_xorAt b key gk hb, ?_⟩⟩
  · rw [scalar_eq_xorAt _ key gk hr, inv]
  · rw [simd128_eq_xorAt _ key gk hr, inv]
  · rw [simd256_eq_xorAt _ key gk hr, inv]
  · rw [hybrid_eq_xorAt _ key gk hr, inv]

/-- C5 at the 1024-byte benchmark buffer and the benchmark key `[1,2,3,4]`. -/
theorem C5_mask_twice_restores_witness :
    IsBytes (benchBuf 1024) ∧ benchKey.length = 4 ∧ IsBytes benchKey ∧
    ((∃ r, MaskXOR_Original_Optimized (benchBuf 1024) benchKey = Except.ok r ∧
      MaskXOR_Original_Optimized r benchKey = Except.ok (benchBuf 1024)) ∧
    (∃ r, MaskXOR_SIMD128 (benchBuf 1024) benchKey = Except.ok r ∧
      MaskXOR_SIMD128 r benchKey = Except.ok (benchBuf 1024)) ∧
    (∃ r, MaskXOR_SIMD256 (benchBuf 1024) benchKey = Except.ok r ∧
      MaskXOR_SIMD256 r benchKey = Except.ok (benchBuf 1024)) ∧
    (∃ r, MaskXOR_SIMD256_128 (benchBuf 1024) benchKey = Except.ok r ∧
      MaskXOR_SIMD256_128 r benchKey = Except.ok (benchBuf 1024))) :=
  ⟨benchBuf_isBytes 1024, rfl, benchKey_isBytes,
    C5_mask_twice_restores (benchBuf 1024) benchKey (benchBuf_isBytes 1024) rfl
      benchKey_isBytes⟩

/-- C6: for every key of four entries, each of the four strategies called on the
zero-length buffer returns normally and leaves the buffer empty. -/
theorem C6_empty_buffer_noop (key : Bytes) (hk : key.length = 4) :
    MaskXOR_Original_Optimized [] key = Except.ok [] ∧
    MaskXOR_SIMD128 [] key = Except.ok [] ∧
    MaskXOR_SIMD256 [] key = Except.ok [] ∧
    MaskXOR_SIMD256_128 [] key = Except.ok [] := by
  obtain ⟨k0, k1, k2, k3, kt, rfl⟩ := exists_cons4 key (by omega)
  exact ⟨rfl, rfl, rfl, rfl⟩

/-- C6 at the benchmark key. -/
theorem C6_empty_buffer_noop_witness :
    benchKey.length = 4 ∧
    MaskXOR_Original_Optimized [] benchKey = Except.ok [] ∧
    MaskXOR_SIMD128 [] benchKey = Except.ok [] ∧
    MaskXOR_SIMD256 [] benchKey = Except.ok [] ∧
    MaskXOR_SIMD256_128 [] benchKey = Except.ok [] :=
  ⟨rfl, C6_empty_buffer_noop benchKey rfl⟩

/-- C7: with key `[1,2,3,4]` and the buffer of 8 zero bytes, each of the four strategies
leaves the buffer equal to `[1,2,3,4,1,2,3,4]`. -/
theorem C7_eight_zero_bytes :
    MaskXOR_Original_Optimized [0, 0, 0, 0, 0, 0, 0, 0] [1, 2, 3, 4]
      = Except.ok [1, 2, 3, 4, 1, 2, 3, 4] ∧
    MaskXOR_SIMD128 [0, 0, 0, 0, 0, 0, 0, 0] [1, 2, 3, 4]
      = Except.ok [1, 2, 3, 4, 1, 2, 3, 4] ∧
    MaskXOR_SIMD256 [0, 0, 0, 0, 0, 0, 0, 0] [1, 2, 3, 4]
      = Except.ok [1, 2, 3, 4, 1, 2, 3, 4] ∧
    MaskXOR_SIMD256_128 [0, 0, 0, 0, 0, 0, 0, 0] [1, 2, 3, 4]
      = Except.ok [1, 2, 3, 4, 1, 2, 3, 4] :=
  ⟨rfl, rfl, rfl, rfl⟩

/-- C8: with key `[0xFF,0xFF,0xFF,0xFF]` and the 6-byte buffer
`[0x00,0x11,0x22,0x33,0x44,0x55]`, `MaskXOR_Original_Optimized` and each vector strategy
leave the buffer equal to `[0xFF,0xEE,0xDD,0xCC,0xBB,0xAA]`; each vector strategy takes the
scalar path at this length: its run consists of the 4-byte step and two byte-wise
iterations, exactly as the run of the scalar strategy. -/
theorem C8_six_bytes_all_ones_key :
    (MaskXOR_Original_Optimized [0x00, 0x11, 0x22, 0x33, 0x44, 0x55] [0xFF, 0xFF, 0xFF, 0xFF]
      = Except.ok [0xFF, 0xEE, 0xDD, 0xCC, 0xBB, 0xAA] ∧
    MaskXOR_SIMD128 [0x00, 0x11, 0x22, 0x33, 0x44, 0x55] [0xFF, 0xFF, 0xFF, 0xFF]
      = Except.ok [0xFF, 0xEE, 0xDD, 0xCC, 0xBB, 0xAA] ∧
    MaskXOR_SIMD256 [0x00, 0x11, 0x22, 0x33, 0x44, 0x55] [0xFF, 0xFF, 0xFF, 0xFF]
      = Except.ok [0xFF, 0xEE, 0xDD, 0xCC, 0xBB, 0xAA] ∧
    MaskXOR_SIMD256_128 [0x00, 0x11, 0x22, 0x33, 0x44, 0x55] [0xFF, 0xFF, 0xFF, 0xFF]
      = Except.ok [0xFF, 0xEE, 0xDD, 0xCC, 0xBB, 0xAA]) ∧
    (MaskXOR_Original_Optimized_st [0x00, 0x11, 0x22, 0x33, 0x44, 0x55]
        [0xFF, 0xFF, 0xFF, 0xFF]
      = Except.ok (Buf.mk [0xFF, 0xEE, 0xDD, 0xCC] [0xBB, 0xAA] [Blk.w32, Blk.byte, Blk.byte]) ∧
    MaskXOR_SIMD128_st [0x00, 0x11, 0x22, 0x33, 0x44, 0x55] [0xFF, 0xFF, 0xFF, 0xFF]
      = Except.ok (Buf.mk [0xFF, 0xEE, 0xDD, 0xCC] [0xBB, 0xAA] [Blk.w32, Blk.byte, Blk.byte]) ∧
    MaskXOR_SIMD256_st [0x00, 0x11, 0x22, 0x33, 0x44, 0x55] [0xFF, 0xFF, 0xFF, 0xFF]
      = Except.ok (Buf.mk [0xFF, 0xEE, 0xDD, 0xCC] [0xBB, 0xAA] [Blk.w32, Blk.byte, Blk.byte]) ∧
    MaskXOR_SIMD256_128_st [0x00, 0x11, 0x22, 0x33, 0x44, 0x55] [0xFF, 0xFF, 0xFF, 0xFF]
      = Except.ok (Buf.mk [0xFF, 0xEE, 0xDD, 0xCC] [0xBB, 0xAA] [Blk.w32, Blk.byte, Blk.byte])) :=
  ⟨⟨rfl, rfl, rfl, rfl⟩, ⟨rfl, rfl, rfl, rfl⟩⟩

/-- C9: for every byte buffer whose length `n` is not a multiple of 4 and every four-byte
key, under every strategy each of the last `n mod 4` bytes, at absolute index `o`, ends up
as `b[o] XOR key[o mod 4]`; the key byte the tail loop reads at its own index
`(o - (n - n mod 4)) & 3` is that same `key[o mod 4]`, so the byte-wise tail continues the
key cycle of the bulk chunks. -/
theorem C9_tail_keeps_phase (b key : Bytes) (hb : IsBytes b) (hk : key.length = 4)
    (hkb : IsBytes key) (_hn : b.length % 4 ≠ 0) (o x : Nat)
    (ho : b.length - b.length % 4 ≤ o) (hx : b[o]? = some x) :
    ∃ k, key[o % 4]? = some k ∧
      key[(o - (b.length - b.length % 4)) &&& 3]? = some k ∧
      (∃ r, MaskXOR_Original_Optimized b key = Except.ok r ∧ r[o]? = some (x ^^^ k)) ∧
      (∃ r, MaskXOR_SIMD128 b key = Except.ok r ∧ r[o]? = some (x ^^^ k)) ∧
      (∃ r, MaskXOR_SIMD256 b key = Except.ok r ∧ r[o]? = some (x ^^^ k)) ∧
      (∃ r, MaskXOR_SIMD256_128 b key = Except.ok r ∧ r[o]? = some (x ^^^ k)) := by
  have gk := goodKey_of_length key hk hkb
  obtain ⟨k, hkk, hr⟩ := xorAt_get key b hk o x hx
  have hlt : o < b.length := by
    rcases Nat.lt_or_ge o b.length with h | h
    · exact h
    · rw [List.getElem?_eq_none h] at hx
      cases hx
  have hloc : (o - (b.length - b.length % 4)) &&& 3 = o % 4 := by
    have h4 : o - (b.length - b.length % 4) < 4 := by omega
    have he : o % 4 = o - (b.length - b.length % 4) := by omega
    rw [he]
    generalize o - (b.length - b.length % 4) = i at h4
    interval_cases i <;> rfl
  refine ⟨k, hkk, ?_, ⟨_, scalar_eq_xorAt b key gk hb, hr⟩,
    ⟨_, simd128_eq_xorAt b key gk hb, hr⟩, ⟨_, simd256_eq_xorAt b key gk hb, hr⟩,
    ⟨_, hybrid_eq_xorAt b key gk hb, hr⟩⟩
  rw [hloc]
  exact hkk

/-- C9 at the 67-byte benchmark buffer: index 66, the last of the three tail bytes, holds 5
and is combined with `key[2] = 3`. -/
theorem C9_tail_keeps_phase_witness :
    IsBytes (benchBuf 67) ∧ benchKey.length = 4 ∧ IsBytes benchKey ∧
    (benchBuf 67).length % 4 ≠ 0 ∧
    (benchBuf 67).length - (benchBuf 67).length % 4 ≤ 66 ∧ (benchBuf 67)[66]? = some 5 ∧
    ∃ k, benchKey[66 % 4]? = some k ∧
      benchKey[(66 - ((benchBuf 67).length - (benchBuf 67).length % 4)) &&& 3]? = some k ∧
      (∃ r, MaskXOR_Original_Optimized (benchBuf 67) benchKey = Except.ok r ∧
        r[66]? = some (5 ^^^ k)) ∧
      (∃ r, MaskXOR_SIMD128 (benchBuf 67) benchKey = Except.ok r ∧ r[66]? = some (5 ^^^ k)) ∧
      (∃ r, MaskXOR_SIMD256 (benchBuf 67) benchKey = Except.ok r ∧ r[66]? = some (5 ^^^ k)) ∧
      (∃ r, MaskXOR_SIMD256_128 (benchBuf 67) benchKey = Except.ok r ∧
        r[66]? = some (5 ^^^ k)) :=
  ⟨benchBuf_isBytes 67, rfl, benchKey_isBytes, by decide, by decide, by rfl,
    C9_tail_keeps_phase (benchBuf 67) benchKey (benchBuf_isBytes 67) rfl benchKey_isBytes
      (by decide) 66 5 (by decide) (by rfl)⟩

/-- C10: for every four-byte key, the expanded patterns are the key tiled in its original
byte order: the little-endian bytes of `key64` are the key twice, `key128Bytes` is the key
four times, `key256Bytes` is the key eight times, and byte `j` of each pattern is
`key[j mod 4]`. -/
theorem C10_key_patterns_tile_key (key : Bytes) (hk : key.length = 4) (hkb : IsBytes key) :
    ∃ key32, leUint32 key = some key32 ∧
      bytes8 (mkKey64 key32) = key ++ key ∧
      key128Bytes (mkKey64 key32) = some (key ++ key ++ key ++ key) ∧
      key256Bytes (mkKey64 key32)
        = some (key ++ key ++ key ++ key ++ key ++ key ++ key ++ key) ∧
      (∀ j, j < 8 → (bytes8 (mkKey64 key32))[j]? = key[j % 4]?) ∧
      (∀ j, j < 16 → (key128Bytes (mkKey64 key32)).bind (fun p => p[j]?) = key[j % 4]?) ∧
      (∀ j, j < 32 → (key256Bytes (mkKey64 key32)).bind (fun p => p[j]?) = key[j % 4]?) := by
  obtain ⟨k0, k1, k2, k3, kt, rfl, h0, h1, h2, h3⟩ := (goodKey_of_length key hk hkb).cases
  have hnil : kt = [] := by simpa using hk
  subst hnil
  refine ⟨_, rfl, bytes8_mkKey64 k0 k1 k2 k3 h0 h1 h2 h3,
    key128Bytes_eq k0 k1 k2 k3 h0 h1 h2 h3, key256Bytes_eq k0 k1 k2 k3 h0 h1 h2 h3, ?_, ?_, ?_⟩
  · intro j hj
    rw [bytes8_mkKey64 k0 k1 k2 k3 h0 h1 h2 h3]
    interval_cases j <;> rfl
  · intro j hj
    rw [key128Bytes_eq k0 k1 k2 k3 h0 h1 h2 h3]
    interval_cases j <;> rfl
  · intro j hj
    rw [key256Bytes_eq k0 k1 k2 k3 h0 h1 h2 h3]
    interval_cases j <;> rfl

/-- C10 at the benchmark key `[1,2,3,4]`. -/
theorem C10_key_patterns_tile_key_witness :
    benchKey.length = 4 ∧ IsBytes benchKey ∧
    ∃ key32, leUint32 benchKey = some key32 ∧
      bytes8 (mkKey64 key32) = benchKey ++ benchKey ∧
      key128Bytes (mkKey64 key32) = some (benchKey ++ benchKey ++ benchKey ++ benchKey) ∧
      key256Bytes (mkKey64 key32)
        = some (benchKey ++ benchKey ++ benchKey ++ benchKey ++ benchKey ++ benchKey
            ++ benchKey ++ benchKey) ∧
      (∀ j, j < 8 → (bytes8 (mkKey64 key32))[j]? = benchKey[j % 4]?) ∧
      (∀ j, j < 16 →
        (key128Bytes (mkKey64 key32)).bind (fun p => p[j]?) = benchKey[j % 4]?) ∧
      (∀ j, j < 32 →
        (key256Bytes (mkKey64 key32)).bind (fun p => p[j]?) = benchKey[j % 4]?) :=
  ⟨rfl, benchKey_isBytes, C10_key_patterns_tile_key benchKey rfl benchKey_isBytes⟩

/-! ## Final states of the cascade -/

theorem finalState_nil (key d : Bytes) (lg : List Blk) :
    finalState key d [] lg = Buf.mk d [] lg := by
  simp [finalState, xorAt]

theorem finalState_short (key d c : Bytes) (lg : List Blk) (h : c.length < 4) :
    finalState key d c lg = Buf.mk d (xorAt key 0 c) lg := by
  have : c.length % 4 = c.length := Nat.mod_eq_of_lt h
  simp [finalState, this, xorAt]

theorem finalState_glue (key : Bytes) (m : Nat) (hm : m % 4 = 0) (d c : Bytes)
    (lg : List Blk) (h : m ≤ c.length) :
    finalState key (d ++ xorAt key 0 (c.take m)) (c.drop m) lg = finalState key d c lg := by
  have hl : (c.drop m).length = c.length - m := List.length_drop _ _
  have hmod : (c.length - m) % 4 = c.length % 4 := by omega
  have e1 : c.length - m - c.length % 4 = (c.length - c.length % 4) - m := by omega
  have e2 : c.length - c.length % 4 = m + ((c.length - c.length % 4) - m) := by omega
  unfold finalState
  rw [hl, hmod, e1, List.drop_drop]
  congr 1
  · rw [List.append_assoc]
    congr 1
    conv_rhs => rw [e2, List.take_add, xorAt_append, List.length_take, Nat.min_eq_left h,
      xorAt_phase key _ (0 + m) 0 (by omega)]
  · congr 2
    omega

theorem ret_or_state (key : Bytes) (s : Buf) (next : Buf → Except Fault Buf)
    (L : Nat → List Blk) (hL : L 0 = [])
    (h : s.cur.length ≠ 0 →
      next s = Except.ok (finalState key s.done s.cur (s.log ++ L s.cur.length))) :
    (if s.cur.length = 0 then pure s else next s)
      = Except.ok (finalState key s.done s.cur (s.log ++ L s.cur.length)) := by
  by_cases h0 : s.cur.length = 0
  · rw [if_pos h0]
    have hc : s.cur = [] := List.eq_nil_of_length_eq_zero h0
    rw [h0, hL, List.append_nil, hc, finalState_nil, ← hc]
    rfl
  · rw [if_neg h0]
    exact h h0

theorem tailBytes_state (key : Bytes) (hk : GoodKey key) (d c : Bytes) (lg : List Blk)
    (hc : c.length < 4) :
    tailBytes key (Buf.mk d c lg)
      = Except.ok (finalState key d c (lg ++ tailLog c.length)) := by
  rw [finalState_short key d c _ hc]
  obtain ⟨k0, k1, k2, k3, kt, rfl, -, -, -, -⟩ := hk.cases
  have a2 : (2 &&& 3 : Nat) = 2 := rfl
  rcases c with _ | ⟨x, _ | ⟨y, _ | ⟨z, _ | ⟨u, c⟩⟩⟩⟩
  · simp [tailBytes, byteLoop, tailLog, xorAt]
  · simp [tailBytes, byteLoop, tailLog, xorAt, logBlk]
  · simp [tailBytes, byteLoop, tailLog, xorAt, logBlk]
  · simp [tailBytes, byteLoop, tailLog, xorAt, logBlk, a2]
  · simp at hc
    omega

theorem step4_state (key : Bytes) (key32 : Nat) (hk : GoodKey key)
    (h32 : leUint32 key = some key32) (d c : Bytes) (lg : List Blk) (hb : IsBytes c)
    (hc : c.length < 8) :
    step4 key key32 (Buf.mk d c lg)
      = Except.ok (finalState key d c (lg ++ log4 c.length)) := by
  obtain ⟨k0, k1, k2, k3, kt, rfl, h0, h1, h2, h3⟩ := hk.cases
  rw [leUint32_key] at h32
  cases h32
  unfold step4
  by_cases h : 4 ≤ c.length
  · have e0 := xor32At_maskPre k0 k1 k2 k3 kt h0 h1 h2 h3 0 4 d c lg rfl rfl h hb
    have hlog : lg ++ log4 c.length = (lg ++ [Blk.w32]) ++ tailLog (c.drop 4).length := by
      simp [log4, h, List.length_drop]
    rw [maskPre_zero] at e0
    simp only [h, if_true, e0, ok_bind, reslice_maskPre _ 4 d c lg h, logBlk]
    rw [← finalState_glue _ 4 rfl d c _ h, hlog]
    refine ret_or_state _ (Buf.mk _ _ _) (tailBytes _) tailLog rfl (fun _ => ?_)
    exact tailBytes_state _ hk _ _ _ (by simp; omega)
  · have hlog : log4 c.length = tailLog c.length := by simp [log4, h]
    simp only [h, if_false]
    rw [hlog]
    exact tailBytes_state _ hk _ _ _ (by omega)

theorem step8_state (key : Bytes) (key32 : Nat) (hk : GoodKey key)
    (h32 : leUint32 key = some key32) (d c : Bytes) (lg : List Blk) (hb : IsBytes c)
    (hc : c.length < 16) :
    step8 key key32 (mkKey64 key32) (Buf.mk d c lg)
      = Except.ok (finalState key d c (lg ++ log8 c.length)) := by
  obtain ⟨k0, k1, k2, k3, kt, rfl, h0, h1, h2, h3⟩ := hk.cases
  have h32c := h32
  rw [leUint32_key] at h32c
  cases h32c
  unfold step8
  by_cases h : 8 ≤ c.length
  · have e0 := xor64At_maskPre k0 k1 k2 k3 kt h0 h1 h2 h3 0 8 d c lg rfl rfl h hb
    have hlog : lg ++ log8 c.length = (lg ++ [Blk.w64x1]) ++ log4 (c.drop 8).length := by
      simp [log8, h, List.length_drop]
    rw [maskPre_zero] at e0
    simp only [h, if_true, e0, ok_bind, reslice_maskPre _ 8 d c lg h, logBlk]
    rw [← finalState_glue _ 8 rfl d c _ h, hlog]
    refine ret_or_state _ (Buf.mk _ _ _) (step4 _ _) log4 rfl (fun _ => ?_)
    exact step4_state _ _ hk h32 _ _ _ (hb.drop 8) (by simp; omega)
  · have hlog : log8 c.length = log4 c.length := by simp [log8, h]
    simp only [h, if_false]
    rw [hlog]
    exact step4_state _ _ hk h32 _ _ _ hb (by omega)

theorem step16_state (key : Bytes) (key32 : Nat) (hk : GoodKey key)
    (h32 : leUint32 key = some key32) (d c : Bytes) (lg : List Blk) (hb : IsBytes c)
    (hc : c.length < 32) :
    step16 key key32 (mkKey64 key32) (Buf.mk d c lg)
      = Except.ok (finalState key d c (lg ++ log16 c.length)) := by
  obtain ⟨k0, k1, k2, k3, kt, rfl, h0, h1, h2, h3⟩ := hk.cases
  have h32c := h32
  rw [leUint32_key] at h32c
  cases h32c
  unfold step16
  by_cases h : 16 ≤ c.length
  · have e0 := xor64At_maskPre k0 k1 k2 k3 kt h0 h1 h2 h3 0 8 d c lg rfl rfl (by omega) hb
    have e1 := xor64At_maskPre k0 k1 k2 k3 kt h0 h1 h2 h3 8 16 d c lg rfl rfl (by omega) hb
    have hlog : lg ++ log16 c.length = (lg ++ [Blk.w64x2]) ++ log8 (c.drop 16).length := by
      simp [log16, h, List.length_drop]
    rw [maskPre_zero] at e0
    simp only [h, if_true, e0, e1, ok_bind, reslice_maskPre _ 16 d c lg h, logBlk]
    rw [← finalState_glue _ 16 rfl d c _ h, hlog]
    refine ret_or_state _ (Buf.mk _ _ _) (step8 _ _ _) log8 rfl (fun _ => ?_)
    exact step8_state _ _ hk h32 _ _ _ (hb.drop 16) (by simp; omega)
  · have hlog : log16 c.length = log8 c.length := by simp [log16, h]
    simp only [h, if_false]
    rw [hlog]
    exact step8_state _ _ hk h32 _ _ _ hb (by omega)

theorem step32_state (key : Bytes) (key32 : Nat) (hk : GoodKey key)
    (h32 : leUint32 key = some key32) (d c : Bytes) (lg : List Blk) (hb : IsBytes c)
    (hc : c.length < 64) :
    step32 key key32 (mkKey64 key32) (Buf.mk d c lg)
      = Except.ok (finalState key d c (lg ++ log32 c.length)) := by
  obtain ⟨k0, k1, k2, k3, kt, rfl, h0, h1, h2, h3⟩ := hk.cases
  have h32c := h32
  rw [leUint32_key] at h32c
  cases h32c
  unfold step32
  by_cases h : 32 ≤ c.length
  · have e0 := xor64At_maskPre k0 k1 k2 k3 kt h0 h1 h2 h3 0 8 d c lg rfl rfl (by omega) hb
    have e1 := xor64At_maskPre k0 k1 k2 k3 kt h0 h1 h2 h3 8 16 d c lg rfl rfl (by omega) hb
    have e2 := xor64At_maskPre k0 k1 k2 k3 kt h0 h1 h2 h3 16 24 d c lg rfl rfl (by omega) hb
    have e3 := xor64At_maskPre k0 k1 k2 k3 kt h0 h1 h2 h3 24 32 d c lg rfl rfl (by omega) hb
    have hlog : lg ++ log32 c.length = (lg ++ [Blk.w64x4]) ++ log16 (c.drop 32).length := by
      simp [log32, h, List.length_drop]
    rw [maskPre_zero] at e0
    simp only [h, if_true, e0, e1, e2, e3, ok_bind, reslice_maskPre _ 32 d c lg h, logBlk]
    rw [← finalState_glue _ 32 rfl d c _ h, hlog]
    refine ret_or_state _ (Buf.mk _ _ _) (step16 _ _ _) log16 rfl (fun _ => ?_)
    exact step16_state _ _ hk h32 _ _ _ (hb.drop 32) (by simp; omega)
  · have hlog : log32 c.length = log16 c.length := by simp [log32, h]
    simp only [h, if_false]
    rw [hlog]
    exact step16_state _ _ hk h32 _ _ _ hb (by omega)

theorem length_drop_div (c : Bytes) (n : Nat) :
    (c.drop (c.length / n * n)).length = c.length % n := by
  rw [List.length_drop]
  have := Nat.div_add_mod c.length n
  have : c.length / n * n = n * (c.length / n) := Nat.mul_comm _ _
  omega

theorem cascade_state (key : Bytes) (key32 : Nat) (hk : GoodKey key)
    (h32 : leUint32 key = some key32) (d c : Bytes) (lg : List Blk) (hb : IsBytes c) :
    cascade key key32 (mkKey64 key32) (Buf.mk d c lg)
      = Except.ok (finalState key d c (lg ++ cascadeLog c.length)) := by
  have hle : c.length / 64 * 64 ≤ c.length := Nat.div_mul_le_self _ _
  have hlen := length_drop_div c 64
  have hlog : lg ++ cascadeLog c.length
      = (lg ++ List.replicate (c.length / 64) Blk.w64x8)
          ++ log32 (c.drop (c.length / 64 * 64)).length := by
    rw [hlen, cascadeLog, List.append_assoc]
  unfold cascade
  rw [loop64_spec key key32 hk h32 c.length d c lg hb (Nat.div_le_self _ _), ok_bind]
  rw [← finalState_glue key (c.length / 64 * 64) (by omega) d c _ hle, hlog]
  refine ret_or_state _ (Buf.mk _ _ _) (step32 _ _ _) log32 rfl (fun _ => ?_)
  refine step32_state key key32 hk h32 _ _ _ (hb.drop _) ?_
  rw [hlen]
  exact Nat.mod_lt _ (by norm_num)

/-! ## Final states of the four strategies -/

theorem finalState_mem (key d c : Bytes) (lg : List Blk) :
    (finalState key d c lg).mem = d ++ xorAt key 0 c := by
  have h : c.length - c.length % 4 ≤ c.length := Nat.sub_le _ _
  have hm : (c.length - c.length % 4) % 4 = 0 := by omega
  unfold finalState Buf.mem
  exact glue key _ hm d c

theorem vec_stage_state (key : Bytes) (d c : Bytes) (lg : List Blk) (t : Blk)
    (hb : IsBytes c) (next : Buf → Except Fault Buf) (L : Nat → List Blk) (hL : L 0 = [])
    (hnext : ∀ d2 c2 lg2, IsBytes c2 → c2.length < 128 →
      next (Buf.mk d2 c2 lg2) = Except.ok (finalState key d2 c2 (lg2 ++ L c2.length))) :
    (if (c.drop (c.length / 128 * 128)).length = 0 then
        pure (Buf.mk (d ++ xorAt key 0 (c.take (c.length / 128 * 128)))
          (c.drop (c.length / 128 * 128)) (lg ++ List.replicate (c.length / 128) t))
      else next (Buf.mk (d ++ xorAt key 0 (c.take (c.length / 128 * 128)))
          (c.drop (c.length / 128 * 128)) (lg ++ List.replicate (c.length / 128) t)))
      = Except.ok (finalState key d c
          (lg ++ (List.replicate (c.length / 128) t ++ L (c.length % 128)))) := by
  have hle : c.length / 128 * 128 ≤ c.length := Nat.div_mul_le_self _ _
  have hlen := length_drop_div c 128
  rw [← finalState_glue key (c.length / 128 * 128) (by omega) d c _ hle,
    ← List.append_assoc, ← hlen]
  refine ret_or_state key (Buf.mk _ _ _) next L hL (fun _ => ?_)
  refine hnext _ _ _ (hb.drop _) ?_
  rw [hlen]
  exact Nat.mod_lt _ (by norm_num)

theorem hybridFrom512_state (key : Bytes) (key32 : Nat) (hk : GoodKey key)
    (h32 : leUint32 key = some key32) (d c : Bytes) (lg : List Blk) (hb : IsBytes c) :
    hybridFrom512 key key32 (mkKey64 key32) (Buf.mk d c lg)
      = Except.ok (finalState key d c (lg ++ vecLog Blk.v128 c.length)) := by
  unfold hybridFrom512 vecLog
  by_cases h : 512 ≤ c.length
  · obtain ⟨k0, k1, k2, k3, kt, rfl, h0, h1, h2, h3⟩ := hk.cases
    have h32c := h32
    rw [leUint32_key] at h32c
    cases h32c
    simp only [h, if_true, key128Bytes_eq k0 k1 k2 k3 h0 h1 h2 h3, orPanic_some, ok_bind]
    rw [loop128_spec k0 k1 k2 k3 kt c.length d c lg (Nat.div_le_self _ _), ok_bind]
    exact vec_stage_state _ d c lg Blk.v128 hb (cascade _ _ _) cascadeLog rfl
      (fun d2 c2 lg2 hb2 _ => cascade_state _ _ hk h32 d2 c2 lg2 hb2)
  · simp only [h, if_false]
    exact cascade_state key key32 hk h32 d c lg hb

/-- Final state of the scalar strategy. -/
theorem scalar_state (b key : Bytes) (hk : GoodKey key) (hb : IsBytes b) :
    MaskXOR_Original_Optimized_st b key
      = Except.ok (finalState key [] b (cascadeLog b.length)) := by
  obtain ⟨key32, h32⟩ := leUint32_goodKey hk
  unfold MaskXOR_Original_Optimized_st
  simp only [h32, orPanic_some, ok_bind]
  exact cascade_state key key32 hk h32 [] b [] hb

/-- Final state of the 128-bit strategy. -/
theorem simd128_state (b key : Bytes) (hk : GoodKey key) (hb : IsBytes b) :
    MaskXOR_SIMD128_st b key
      = Except.ok (finalState key [] b (vecLog Blk.v128 b.length)) := by
  obtain ⟨key32, h32⟩ := leUint32_goodKey hk
  unfold MaskXOR_SIMD128_st
  simp only [h32, orPanic_some, ok_bind]
  exact hybridFrom512_state key key32 hk h32 [] b [] hb

/-- Final state of the 256-bit strategy. -/
theorem simd256_state (b key : Bytes) (hk : GoodKey key) (hb : IsBytes b) :
    MaskXOR_SIMD256_st b key
      = Except.ok (finalState key [] b (vecLog Blk.v256 b.length)) := by
  obtain ⟨key32, h32⟩ := leUint32_goodKey hk
  unfold MaskXOR_SIMD256_st vecLog
  simp only [h32, orPanic_some, ok_bind]
  by_cases h : 512 ≤ b.length
  · obtain ⟨k0, k1, k2, k3, kt, rfl, h0, h1, h2, h3⟩ := hk.cases
    have h32c := h32
    rw [leUint32_key] at h32c
    cases h32c
    simp only [h, if_true, key256Bytes_eq k0 k1 k2 k3 h0 h1 h2 h3, orPanic_some, ok_bind]
    rw [loop256_spec k0 k1 k2 k3 kt b.length [] b [] (Nat.div_le_self _ _), ok_bind]
    exact vec_stage_state _ [] b [] Blk.v256 hb (cascade _ _ _) cascadeLog rfl
      (fun d2 c2 lg2 hb2 _ => cascade_state _ _ hk h32 d2 c2 lg2 hb2)
  · simp only [h, if_false]
    exact cascade_state key key32 hk h32 [] b [] hb

/-- Final state of the hybrid strategy. -/
theorem hybrid_state (b key : Bytes) (hk : GoodKey key) (hb : IsBytes b) :
    MaskXOR_SIMD256_128_st b key
      = Except.ok (finalState key [] b (hybridLog b.length)) := by
  obtain ⟨key32, h32⟩ := leUint32_goodKey hk
  unfold MaskXOR_SIMD256_128_st hybridLog
  simp only [h32, orPanic_some, ok_bind]
  by_cases h : 4096 ≤ b.length
  · obtain ⟨k0, k1, k2, k3, kt, rfl, h0, h1, h2, h3⟩ := hk.cases
    have h32c := h32
    rw [leUint32_key] at h32c
    cases h32c
    simp only [h, if_true, key256Bytes_eq k0 k1 k2 k3 h0 h1 h2 h3, orPanic_some, ok_bind]
    rw [loop256_spec k0 k1 k2 k3 kt b.length [] b [] (Nat.div_le_self _ _), ok_bind]
    exact vec_stage_state _ [] b [] Blk.v256 hb (hybridFrom512 _ _ _)
      (vecLog Blk.v128) rfl
      (fun d2 c2 lg2 hb2 _ => hybridFrom512_state _ _ hk h32 d2 c2 lg2 hb2)
  · simp only [h, if_false]
    exact hybridFrom512_state key key32 hk h32 [] b [] hb

/-! ## Counting blocks -/

theorem log32_counts : ∀ m, m < 64 →
    (log32 m).count Blk.v256 = 0 ∧ (log32 m).count Blk.v128 = 0 ∧
    (log32 m).count Blk.w64x8 = 0 ∧ (log32 m).count Blk.w64x4 ≤ 1 ∧
    (log32 m).count Blk.w64x2 ≤ 1 ∧ (log32 m).count Blk.w64x1 ≤ 1 ∧
    (log32 m).count Blk.w32 ≤ 1 ∧ (log32 m).count Blk.byte = m % 4 := by
  decide

theorem cascadeLog_counts (n : Nat) :
    (cascadeLog n).count Blk.v256 = 0 ∧ (cascadeLog n).count Blk.v128 = 0 ∧
    (cascadeLog n).count Blk.w64x8 = n / 64 ∧ (cascadeLog n).count Blk.w64x4 ≤ 1 ∧
    (cascadeLog n).count Blk.w64x2 ≤ 1 ∧ (cascadeLog n).count Blk.w64x1 ≤ 1 ∧
    (cascadeLog n).count Blk.w32 ≤ 1 ∧ (cascadeLog n).count Blk.byte = n % 4 := by
  have hm : n % 64 < 64 := Nat.mod_lt _ (by norm_num)
  obtain ⟨c1, c2, c3, c4, c5, c6, c7, c8⟩ := log32_counts (n % 64) hm
  have e : n % 64 % 4 = n % 4 := by omega
  unfold cascadeLog
  simp only [List.count_append, List.count_replicate, c1, c2, c3, c8, e]
  refine ⟨by simp, by simp, by simp, ?_, ?_, ?_, ?_, by simp⟩
  · simpa using c4
  · simpa using c5
  · simpa using c6
  · simpa using c7

theorem vecLog_small (t : Blk) (n : Nat) (h : n < 512) : vecLog t n = cascadeLog n := by
  unfold vecLog
  rw [if_neg (by omega)]

theorem vecLog_counts (n : Nat) :
    (vecLog Blk.v128 n).count Blk.v128 = (if 512 ≤ n then n / 128 else 0) ∧
    (vecLog Blk.v128 n).count Blk.v256 = 0 ∧
    (vecLog Blk.v256 n).count Blk.v256 = (if 512 ≤ n then n / 128 else 0) ∧
    (vecLog Blk.v256 n).count Blk.v128 = 0 := by
  obtain ⟨a1, a2, -⟩ := cascadeLog_counts n
  obtain ⟨b1, b2, -⟩ := cascadeLog_counts (n % 128)
  unfold vecLog
  by_cases h : 512 ≤ n
  · simp [h, List.count_append, List.count_replicate, b1, b2]
  · simp [h, a1, a2]

theorem hybridLog_counts (n : Nat) :
    (hybridLog n).count Blk.v256 = (if 4096 ≤ n then n / 128 else 0) ∧
    (hybridLog n).count Blk.v128 = (if 4096 ≤ n then 0 else if 512 ≤ n then n / 128 else 0) := by
  obtain ⟨a1, a2, -, -⟩ := vecLog_counts n
  obtain ⟨b1, b2, -⟩ := cascadeLog_counts (n % 128)
  have hm : n % 128 < 512 := by omega
  unfold hybridLog
  by_cases h : 4096 ≤ n
  · simp [h, List.count_append, List.count_replicate, vecLog_small _ _ hm, b1, b2]
  · simp [h, a1, a2]

theorem finalState_split (key b : Bytes) (m : Nat) (hm : m % 4 = 0) (h : m ≤ b.length)
    (L1 L2 : List Blk) :
    finalState key [] b (L1 ++ L2)
      = Buf.mk (xorAt key 0 (b.take m) ++ (finalState key [] (b.drop m) L2).done)
          (finalState key [] (b.drop m) L2).cur
          (L1 ++ (finalState key [] (b.drop m) L2).log) := by
  rw [← finalState_glue key m hm [] b _ h]
  simp [finalState]

theorem finalState_done_length (key d c : Bytes) (lg : List Blk) :
    (finalState key d c lg).done.length = d.length + (c.length - c.length % 4) := by
  have h : c.length - c.length % 4 ≤ c.length := Nat.sub_le _ _
  simp [finalState, xorAt_length, Nat.min_eq_left h]

theorem finalState_cur_length (key d c : Bytes) (lg : List Blk) :
    (finalState key d c lg).cur.length = c.length % 4 := by
  have h : c.length % 4 ≤ c.length := Nat.mod_le _ _
  simp [finalState, xorAt_length]
  omega

/-! ## Claims on bounds, control flow and algebra -/

theorem completesWhole_of_eq (f : Bytes → Bytes → Except Fault Bytes) (b key : Bytes)
    (hk : key.length = 4) (h : f b key = Except.ok (xorAt key 0 b)) :
    CompletesWhole f b key :=
  ⟨xorAt key 0 b, h, xorAt_length key b 0, fun i x hx => xorAt_get key b hk i x hx⟩

/-- C11: for every byte buffer and every key of exactly four bytes, none of the four
strategies hits an out-of-range slice, load, store or key index: no call ends in a panic,
each returns normally and has masked the whole buffer. -/
theorem C11_no_out_of_range (b key : Bytes) (hb : IsBytes b) (hk : key.length = 4)
    (hkb : IsBytes key) :
    (CompletesWhole MaskXOR_Original_Optimized b key ∧ CompletesWhole MaskXOR_SIMD128 b key ∧
      CompletesWhole MaskXOR_SIMD256 b key ∧ CompletesWhole MaskXOR_SIMD256_128 b key) ∧
    (∀ m, MaskXOR_Original_Optimized b key ≠ Except.error (Fault.panic m) ∧
      MaskXOR_SIMD128 b key ≠ Except.error (Fault.panic m) ∧
      MaskXOR_SIMD256 b key ≠ Except.error (Fault.panic m) ∧
      MaskXOR_SIMD256_128 b key ≠ Except.error (Fault.panic m)) := by
  have gk := goodKey_of_length key hk hkb
  have e1 := scalar_eq_xorAt b key gk hb
  have e2 := simd128_eq_xorAt b key gk hb
  have e3 := simd256_eq_xorAt b key gk hb
  have e4 := hybrid_eq_xorAt b key gk hb
  refine ⟨⟨completesWhole_of_eq _ b key hk e1, completesWhole_of_eq _ b key hk e2,
    completesWhole_of_eq _ b key hk e3, completesWhole_of_eq _ b key hk e4⟩, fun m => ?_⟩
  rw [e1, e2, e3, e4]
  refine ⟨?_, ?_, ?_, ?_⟩ <;> intro h <;> cases h

/-- C11 at the 4097-byte benchmark buffer and the benchmark key. -/
theorem C11_no_out_of_range_witness :
    IsBytes (benchBuf 4097) ∧ benchKey.length = 4 ∧ IsBytes benchKey ∧
    ((CompletesWhole MaskXOR_Original_Optimized (benchBuf 4097) benchKey ∧
      CompletesWhole MaskXOR_SIMD128 (benchBuf 4097) benchKey ∧
      CompletesWhole MaskXOR_SIMD256 (benchBuf 4097) benchKey ∧
      CompletesWhole MaskXOR_SIMD256_128 (benchBuf 4097) benchKey) ∧
    (∀ m, MaskXOR_Original_Optimized (benchBuf 4097) benchKey ≠ Except.error (Fault.panic m) ∧
      MaskXOR_SIMD128 (benchBuf 4097) benchKey ≠ Except.error (Fault.panic m) ∧
      MaskXOR_SIMD256 (benchBuf 4097) benchKey ≠ Except.error (Fault.panic m) ∧
      MaskXOR_SIMD256_128 (benchBuf 4097) benchKey ≠ Except.error (Fault.panic m))) :=
  ⟨benchBuf_isBytes 4097, rfl, benchKey_isBytes,
    C11_no_out_of_range (benchBuf 4097) benchKey (benchBuf_isBytes 4097) rfl benchKey_isBytes⟩

/-- C12, refuted: there is no byte buffer and four-byte key for which one call of
`MaskXOR_SIMD256_128` executes an iteration of the 256-bit loop and also an iteration of
the 128-bit loop. -/
theorem C12_two_widths_refuted :
    ¬ ∃ b key s, IsBytes b ∧ key.length = 4 ∧ IsBytes key ∧
      MaskXOR_SIMD256_128_st b key = Except.ok s ∧
      1 ≤ s.log.count Blk.v256 ∧ 1 ≤ s.log.count Blk.v128 := by
  rintro ⟨b, key, s, hb, hk, hkb, hrun, h256, h128⟩
  rw [hybrid_state b key (goodKey_of_length key hk hkb) hb] at hrun
  cases hrun
  obtain ⟨c1, c2⟩ := hybridLog_counts b.length
  simp only [finalState] at h256 h128
  rw [c1] at h256
  rw [c2] at h128
  by_cases h : 4096 ≤ b.length
  · simp [h] at h128
  · simp [h] at h256

/-- C12, amended: a call of `MaskXOR_SIMD256_128` uses at most one vector width. From 4096
bytes on the 256-bit loop runs `n / 128` times, leaves fewer than 128 bytes, and the
128-bit loop runs no iteration; below 4096 bytes the 256-bit loop runs no iteration. The
128-bit loop runs only when `512 <= n < 4096`, and then `n / 128 >= 1` times; below 512
bytes it runs no iteration. -/
theorem C12_one_width_per_call (b key : Bytes) (hb : IsBytes b) (hk : key.length = 4)
    (hkb : IsBytes key) :
    ∃ s, MaskXOR_SIMD256_128_st b key = Except.ok s ∧
      (s.log.count Blk.v256 = 0 ∨ s.log.count Blk.v128 = 0) ∧
      (4096 ≤ b.length →
        s.log.count Blk.v256 = b.length / 128 ∧ s.log.count Blk.v128 = 0 ∧
        ∃ key32 key256 s1, leUint32 key = some key32 ∧
          key256Bytes (mkKey64 key32) = some key256 ∧
          loop256 key256 b.length (Buf.mk [] b []) = Except.ok s1 ∧
          s1.log = List.replicate (b.length / 128) Blk.v256 ∧ s1.cur.length < 128) ∧
      (b.length < 4096 → s.log.count Blk.v256 = 0) ∧
      (512 ≤ b.length → b.length < 4096 →
        s.log.count Blk.v128 = b.length / 128 ∧ 1 ≤ s.log.count Blk.v128) ∧
      (b.length < 512 → s.log.count Blk.v128 = 0) ∧
      (1 ≤ s.log.count Blk.v128 → 512 ≤ b.length ∧ b.length < 4096) ∧
      (1 ≤ s.log.count Blk.v256 → 4096 ≤ b.length) := by
  have gk := goodKey_of_length key hk hkb
  obtain ⟨c1, c2⟩ := hybridLog_counts b.length
  refine ⟨_, hybrid_state b key gk hb, ?_, ?_, ?_, ?_, ?_, ?_, ?_⟩
  · simp only [finalState]
    rw [c1, c2]
    by_cases h : 4096 ≤ b.length
    · right; simp [h]
    · left; simp [h]
  · intro h
    simp only [finalState]
    rw [c1, c2]
    refine ⟨by simp [h], by simp [h], ?_⟩
    obtain ⟨k0, k1, k2, k3, kt, rfl, h0, h1, h2, h3⟩ := gk.cases
    refine ⟨_, _, _, rfl, key256Bytes_eq k0 k1 k2 k3 h0 h1 h2 h3,
      loop256_spec k0 k1 k2 k3 kt b.length [] b [] (Nat.div_le_self _ _), by simp, ?_⟩
    show (b.drop (b.length / 128 * 128)).length < 128
    rw [length_drop_div]
    exact Nat.mod_lt _ (by norm_num)
  · intro h
    simp only [finalState]
    rw [c1]
    simp; omega
  · intro h5 h4
    have hn4 : ¬ 4096 ≤ b.length := by omega
    simp only [finalState]
    rw [c2, if_neg hn4, if_pos h5]
    exact ⟨rfl, by omega⟩
  · intro h5
    have hn4 : ¬ 4096 ≤ b.length := by omega
    have hn5 : ¬ 512 ≤ b.length := by omega
    simp only [finalState]
    rw [c2, if_neg hn4, if_neg hn5]
  · intro h1
    simp only [finalState] at h1
    rw [c2] at h1
    by_cases h4 : 4096 ≤ b.length
    · rw [if_pos h4] at h1; omega
    · rw [if_neg h4] at h1
      by_cases h5 : 512 ≤ b.length
      · exact ⟨h5, by omega⟩
      · rw [if_neg h5] at h1; omega
  · intro h1
    simp only [finalState] at h1
    rw [c1] at h1
    by_cases h4 : 4096 ≤ b.length
    · exact h4
    · rw [if_neg h4] at h1; omega

/-- C12 amended, at the benchmark buffers of 8192, 1024 and 300 bytes (one in each size
tier). -/
theorem C12_one_width_per_call_witness :
    (IsBytes (benchBuf 8192) ∧ IsBytes (benchBuf 1024) ∧ IsBytes (benchBuf 300)) ∧
    benchKey.length = 4 ∧ IsBytes benchKey ∧
    (∃ s, MaskXOR_SIMD256_128_st (benchBuf 8192) benchKey = Except.ok s ∧
      (s.log.count Blk.v256 = 0 ∨ s.log.count Blk.v128 = 0) ∧
      (4096 ≤ (benchBuf 8192).length →
        s.log.count Blk.v256 = (benchBuf 8192).length / 128 ∧ s.log.count Blk.v128 = 0 ∧
        ∃ key32 key256 s1, leUint32 benchKey = some key32 ∧
          key256Bytes (mkKey64 key32) = some key256 ∧
          loop256 key256 (benchBuf 8192).length (Buf.mk [] (benchBuf 8192) []) = Except.ok s1 ∧
          s1.log = List.replicate ((benchBuf 8192).length / 128) Blk.v256 ∧
          s1.cur.length < 128) ∧
      ((benchBuf 8192).length < 4096 → s.log.count Blk.v256 = 0) ∧
      (512 ≤ (benchBuf 8192).length → (benchBuf 8192).length < 4096 →
        s.log.count Blk.v128 = (benchBuf 8192).length / 128 ∧ 1 ≤ s.log.count Blk.v128) ∧
      ((benchBuf 8192).length < 512 → s.log.count Blk.v128 = 0) ∧
      (1 ≤ s.log.count Blk.v128 →
        512 ≤ (benchBuf 8192).length ∧ (benchBuf 8192).length < 4096) ∧
      (1 ≤ s.log.count Blk.v256 → 4096 ≤ (benchBuf 8192).length)) ∧
    (∃ s, MaskXOR_SIMD256_128_st (benchBuf 1024) benchKey = Except.ok s ∧
      (s.log.count Blk.v256 = 0 ∨ s.log.count Blk.v128 = 0) ∧
      (4096 ≤ (benchBuf 1024).length →
        s.log.count Blk.v256 = (benchBuf 1024).length / 128 ∧ s.log.count Blk.v128 = 0 ∧
        ∃ key32 key256 s1, leUint32 benchKey = some key32 ∧
          key256Bytes (mkKey64 key32) = some key256 ∧
          loop256 key256 (benchBuf 1024).length (Buf.mk [] (benchBuf 1024) []) = Except.ok s1 ∧
          s1.log = List.replicate ((benchBuf 1024).length / 128) Blk.v256 ∧
          s1.cur.length < 128) ∧
      ((benchBuf 1024).length < 4096 → s.log.count Blk.v256 = 0) ∧
      (512 ≤ (benchBuf 1024).length → (benchBuf 1024).length < 4096 →
        s.log.count Blk.v128 = (benchBuf 1024).length / 128 ∧ 1 ≤ s.log.count Blk.v128) ∧
      ((benchBuf 1024).length < 512 → s.log.count Blk.v128 = 0) ∧
      (1 ≤ s.log.count Blk.v128 →
        512 ≤ (benchBuf 1024).length ∧ (benchBuf 1024).length < 4096) ∧
      (1 ≤ s.log.count Blk.v256 → 4096 ≤ (benchBuf 1024).length)) ∧
    (∃ s, MaskXOR_SIMD256_128_st (benchBuf 300) benchKey = Except.ok s ∧
      (s.log.count Blk.v256 = 0 ∨ s.log.count Blk.v128 = 0) ∧
      (4096 ≤ (benchBuf 300).length →
        s.log.count Blk.v256 = (benchBuf 300).length / 128 ∧ s.log.count Blk.v128 = 0 ∧
        ∃ key32 key256 s1, leUint32 benchKey = some key32 ∧
          key256Bytes (mkKey64 key32) = some key256 ∧
          loop256 key256 (benchBuf 300).length (Buf.mk [] (benchBuf 300) []) = Except.ok s1 ∧
          s1.log = List.replicate ((benchBuf 300).length / 128) Blk.v256 ∧
          s1.cur.length < 128) ∧
      ((benchBuf 300).length < 4096 → s.log.count Blk.v256 = 0) ∧
      (512 ≤ (benchBuf 300).length → (benchBuf 300).length < 4096 →
        s.log.count Blk.v128 = (benchBuf 300).length / 128 ∧ 1 ≤ s.log.count Blk.v128) ∧
      ((benchBuf 300).length < 512 → s.log.count Blk.v128 = 0) ∧
      (1 ≤ s.log.count Blk.v128 →
        512 ≤ (benchBuf 300).length ∧ (benchBuf 300).length < 4096) ∧
      (1 ≤ s.log.count Blk.v256 → 4096 ≤ (benchBuf 300).length)) :=
  ⟨⟨benchBuf_isBytes 8192, benchBuf_isBytes 1024, benchBuf_isBytes 300⟩, rfl,
    benchKey_isBytes,
    C12_one_width_per_call (benchBuf 8192) benchKey (benchBuf_isBytes 8192) rfl
      benchKey_isBytes,
    C12_one_width_per_call (benchBuf 1024) benchKey (benchBuf_isBytes 1024) rfl
      benchKey_isBytes,
    C12_one_width_per_call (benchBuf 300) benchKey (benchBuf_isBytes 300) rfl
      benchKey_isBytes⟩

theorem vec_compose (key b : Bytes) (gk : GoodKey key) (hb : IsBytes b) (q : Nat)
    (t : Blk) (hq : 128 * q ≤ b.length) :
    ∃ s2, MaskXOR_Original_Optimized_st (b.drop (128 * q)) key = Except.ok s2 ∧
      finalState key [] b (List.replicate q t ++ cascadeLog (b.length - 128 * q))
        = Buf.mk (xorAt key 0 (b.take (128 * q)) ++ s2.done) s2.cur
            (List.replicate q t ++ s2.log) := by
  have hl : (b.drop (128 * q)).length = b.length - 128 * q := List.length_drop _ _
  refine ⟨_, scalar_state (b.drop (128 * q)) key gk (hb.drop _), ?_⟩
  rw [hl]
  exact finalState_split key b (128 * q) (by omega) hq _ _

/-- C13: for every byte buffer of length `n` and every four-byte key, `MaskXOR_SIMD256_128`
follows the decision ladder: with `q = n / 128` if `n >= 512` and `q = 0` otherwise, the
256-bit loop runs `q` iterations if `n >= 4096` and none otherwise, the 128-bit loop runs
`q` iterations if `512 <= n < 4096` and none otherwise; the vector stages consume `128 * q`
bytes, and the remaining bytes (`n mod 128`, or all `n` when `n < 512`) are processed
exactly as by the scalar cascade. -/
theorem C13_hybrid_decision_ladder (b key : Bytes) (hb : IsBytes b) (hk : key.length = 4)
    (hkb : IsBytes key) :
    ∃ s q, MaskXOR_SIMD256_128_st b key = Except.ok s ∧
      q = (if 512 ≤ b.length then b.length / 128 else 0) ∧
      s.log.count Blk.v256 = (if 4096 ≤ b.length then q else 0) ∧
      s.log.count Blk.v128 = (if 4096 ≤ b.length then 0 else q) ∧
      b.length - 128 * q = (if 512 ≤ b.length then b.length % 128 else b.length) ∧
      ∃ s2, MaskXOR_Original_Optimized_st (b.drop (128 * q)) key = Except.ok s2 ∧
        (b.drop (128 * q)).length = b.length - 128 * q ∧
        s.done = xorAt key 0 (b.take (128 * q)) ++ s2.done ∧ s.cur = s2.cur ∧
        s.log = List.replicate q (if 4096 ≤ b.length then Blk.v256 else Blk.v128) ++ s2.log := by
  have gk := goodKey_of_length key hk hkb
  obtain ⟨c1, c2⟩ := hybridLog_counts b.length
  have hdm := Nat.div_add_mod b.length 128
  refine ⟨_, _, hybrid_state b key gk hb, rfl, ?_, ?_, ?_, ?_⟩
  · simp only [finalState]
    rw [c1]
    by_cases h : 4096 ≤ b.length
    · have : 512 ≤ b.length := by omega
      simp [h, this]
    · simp [h]
  · simp only [finalState]
    rw [c2]
  · by_cases h : 512 ≤ b.length
    · simp only [h, if_true]; omega
    · simp [h]
  · by_cases h : 512 ≤ b.length
    · have hq : 128 * (b.length / 128) ≤ b.length := by omega
      have hr : b.length - 128 * (b.length / 128) = b.length % 128 := by omega
      have hm : b.length % 128 < 512 := by omega
      simp only [h, if_true]
      obtain ⟨s2, hs2, hfin⟩ := vec_compose key b gk hb (b.length / 128)
        (if 4096 ≤ b.length then Blk.v256 else Blk.v128) hq
      refine ⟨s2, hs2, List.length_drop _ _, ?_⟩
      have hlog : hybridLog b.length
          = List.replicate (b.length / 128) (if 4096 ≤ b.length then Blk.v256 else Blk.v128)
              ++ cascadeLog (b.length - 128 * (b.length / 128)) := by
        rw [hr]
        unfold hybridLog
        by_cases h4 : 4096 ≤ b.length
        · simp only [h4, if_true]
          rw [vecLog_small _ _ hm]
        · simp only [h4, if_false]
          unfold vecLog
          rw [if_pos h]
      rw [hlog, hfin]
      exact ⟨rfl, rfl, rfl⟩
    · have hq : 128 * 0 ≤ b.length := by omega
      have hn : b.length < 512 := by omega
      have h4 : ¬ 4096 ≤ b.length := by omega
      simp only [h, if_false]
      obtain ⟨s2, hs2, hfin⟩ := vec_compose key b gk hb 0 Blk.v128 hq
      refine ⟨s2, hs2, List.length_drop _ _, ?_⟩
      have hlog : hybridLog b.length
          = List.replicate 0 Blk.v128 ++ cascadeLog (b.length - 128 * 0) := by
        unfold hybridLog
        rw [if_neg h4, vecLog_small _ _ hn]
        simp
      rw [hlog, hfin, if_neg h4]
      exact ⟨rfl, rfl, rfl⟩

/-- C13 at the 4097-byte benchmark buffer. -/
theorem C13_hybrid_decision_ladder_witness :
    IsBytes (benchBuf 4097) ∧ benchKey.length = 4 ∧ IsBytes benchKey ∧
    ∃ s q, MaskXOR_SIMD256_128_st (benchBuf 4097) benchKey = Except.ok s ∧
      q = (if 512 ≤ (benchBuf 4097).length then (benchBuf 4097).length / 128 else 0) ∧
      s.log.count Blk.v256 = (if 4096 ≤ (benchBuf 4097).length then q else 0) ∧
      s.log.count Blk.v128 = (if 4096 ≤ (benchBuf 4097).length then 0 else q) ∧
      (benchBuf 4097).length - 128 * q
        = (if 512 ≤ (benchBuf 4097).length then (benchBuf 4097).length % 128
            else (benchBuf 4097).length) ∧
      ∃ s2, MaskXOR_Original_Optimized_st ((benchBuf 4097).drop (128 * q)) benchKey
          = Except.ok s2 ∧
        ((benchBuf 4097).drop (128 * q)).length = (benchBuf 4097).length - 128 * q ∧
        s.done = xorAt benchKey 0 ((benchBuf 4097).take (128 * q)) ++ s2.done ∧
        s.cur = s2.cur ∧
        s.log = List.replicate q
          (if 4096 ≤ (benchBuf 4097).length then Blk.v256 else Blk.v128) ++ s2.log :=
  ⟨benchBuf_isBytes 4097, rfl, benchKey_isBytes,
    C13_hybrid_decision_ladder (benchBuf 4097) benchKey (benchBuf_isBytes 4097) rfl
      benchKey_isBytes⟩

theorem vecLog_big (t : Blk) (n : Nat) (h : 512 ≤ n) :
    vecLog t n = List.replicate (n / 128) t ++ cascadeLog (n - 128 * (n / 128)) := by
  have hdm := Nat.div_add_mod n 128
  have hr : n - 128 * (n / 128) = n % 128 := by omega
  unfold vecLog
  rw [if_pos h, hr]

/-- C14: for every byte buffer `b` of length `n` and every four-byte key, `MaskXOR_SIMD128`
and `MaskXOR_SIMD256` are the following composition. If `n < 512` the run is the run of
`MaskXOR_Original_Optimized` on `b`, with no vector iteration. If `n >= 512` the vector loop
runs `n / 128` iterations and leaves the first `128 * (n / 128)` bytes XORed with the tiled
key, and what it does to the remaining `n mod 128` bytes is exactly the run of
`MaskXOR_Original_Optimized` on that suffix. -/
theorem C14_vector_then_scalar_routine (b key : Bytes) (hb : IsBytes b)
    (hk : key.length = 4) (hkb : IsBytes key) :
    (b.length < 512 →
      MaskXOR_SIMD128_st b key = MaskXOR_Original_Optimized_st b key ∧
      MaskXOR_SIMD256_st b key = MaskXOR_Original_Optimized_st b key ∧
      ∃ s, MaskXOR_Original_Optimized_st b key = Except.ok s ∧
        s.log.count Blk.v128 = 0 ∧ s.log.count Blk.v256 = 0) ∧
    (512 ≤ b.length →
      ∃ s2, MaskXOR_Original_Optimized_st (b.drop (128 * (b.length / 128))) key
          = Except.ok s2 ∧
        (b.drop (128 * (b.length / 128))).length = b.length % 128 ∧
        MaskXOR_SIMD128_st b key
          = Except.ok (Buf.mk (xorAt key 0 (b.take (128 * (b.length / 128))) ++ s2.done)
              s2.cur (List.replicate (b.length / 128) Blk.v128 ++ s2.log)) ∧
        MaskXOR_SIMD256_st b key
          = Except.ok (Buf.mk (xorAt key 0 (b.take (128 * (b.length / 128))) ++ s2.done)
              s2.cur (List.replicate (b.length / 128) Blk.v256 ++ s2.log)) ∧
        MaskXOR_Original_Optimized (b.drop (128 * (b.length / 128))) key
          = Except.ok s2.mem ∧
        MaskXOR_SIMD128 b key
          = Except.ok (xorAt key 0 (b.take (128 * (b.length / 128))) ++ s2.mem) ∧
        MaskXOR_SIMD256 b key
          = Except.ok (xorAt key 0 (b.take (128 * (b.length / 128))) ++ s2.mem)) := by
  have gk := goodKey_of_length key hk hkb
  have hdm := Nat.div_add_mod b.length 128
  constructor
  · intro h
    obtain ⟨c1, c2, -⟩ := cascadeLog_counts b.length
    rw [simd128_state b key gk hb, simd256_state b key gk hb, scalar_state b key gk hb,
      vecLog_small _ _ h, vecLog_small _ _ h]
    exact ⟨rfl, rfl, _, rfl, c2, c1⟩
  · intro h
    have hq : 128 * (b.length / 128) ≤ b.length := by omega
    obtain ⟨s2, hs2, hfin⟩ := vec_compose key b gk hb (b.length / 128) Blk.v128 hq
    obtain ⟨s3, hs3, hfin3⟩ := vec_compose key b gk hb (b.length / 128) Blk.v256 hq
    rw [hs2] at hs3
    cases hs3
    have h128 := simd128_state b key gk hb
    have h256 := simd256_state b key gk hb
    rw [vecLog_big _ _ h, hfin] at h128
    rw [vecLog_big _ _ h, hfin3] at h256
    refine ⟨s2, hs2, ?_, h128, h256, ?_, ?_, ?_⟩
    · rw [List.length_drop]; omega
    · unfold MaskXOR_Original_Optimized
      rw [hs2]
      rfl
    · unfold MaskXOR_SIMD128
      rw [h128]
      simp [observe, Buf.mem]
    · unfold MaskXOR_SIMD256
      rw [h256]
      simp [observe, Buf.mem]

/-- C14 at the 600-byte benchmark buffer (four vector iterations, 88 bytes left). -/
theorem C14_vector_then_scalar_routine_witness :
    IsBytes (benchBuf 600) ∧ benchKey.length = 4 ∧ IsBytes benchKey ∧
    ((benchBuf 600).length < 512 →
      MaskXOR_SIMD128_st (benchBuf 600) benchKey
        = MaskXOR_Original_Optimized_st (benchBuf 600) benchKey ∧
      MaskXOR_SIMD256_st (benchBuf 600) benchKey
        = MaskXOR_Original_Optimized_st (benchBuf 600) benchKey ∧
      ∃ s, MaskXOR_Original_Optimized_st (benchBuf 600) benchKey = Except.ok s ∧
        s.log.count Blk.v128 = 0 ∧ s.log.count Blk.v256 = 0) ∧
    (512 ≤ (benchBuf 600).length →
      ∃ s2, MaskXOR_Original_Optimized_st
          ((benchBuf 600).drop (128 * ((benchBuf 600).length / 128))) benchKey
          = Except.ok s2 ∧
        ((benchBuf 600).drop (128 * ((benchBuf 600).length / 128))).length
          = (benchBuf 600).length % 128 ∧
        MaskXOR_SIMD128_st (benchBuf 600) benchKey
          = Except.ok (Buf.mk
              (xorAt benchKey 0 ((benchBuf 600).take (128 * ((benchBuf 600).length / 128)))
                ++ s2.done)
              s2.cur (List.replicate ((benchBuf 600).length / 128) Blk.v128 ++ s2.log)) ∧
        MaskXOR_SIMD256_st (benchBuf 600) benchKey
          = Except.ok (Buf.mk
              (xorAt benchKey 0 ((benchBuf 600).take (128 * ((benchBuf 600).length / 128)))
                ++ s2.done)
              s2.cur (List.replicate ((benchBuf 600).length / 128) Blk.v256 ++ s2.log)) ∧
        MaskXOR_Original_Optimized
            ((benchBuf 600).drop (128 * ((benchBuf 600).length / 128))) benchKey
          = Except.ok s2.mem ∧
        MaskXOR_SIMD128 (benchBuf 600) benchKey
          = Except.ok
              (xorAt benchKey 0 ((benchBuf 600).take (128 * ((benchBuf 600).length / 128)))
                ++ s2.mem) ∧
        MaskXOR_SIMD256 (benchBuf 600) benchKey
          = Except.ok
              (xorAt benchKey 0 ((benchBuf 600).take (128 * ((benchBuf 600).length / 128)))
                ++ s2.mem)) :=
  ⟨benchBuf_isBytes 600, rfl, benchKey_isBytes,
    C14_vector_then_scalar_routine (benchBuf 600) benchKey (benchBuf_isBytes 600) rfl
      benchKey_isBytes⟩

/-- C15: in `MaskXOR_Original_Optimized`, for every byte buffer of length `n` (and every
four-byte key): the 64-byte loop runs `n / 64` iterations and consumes `64 * (n / 64)`
bytes; each of the 32-, 16-, 8- and 4-byte steps runs at most once; the byte-wise loop runs
`n mod 4` iterations, and where it starts the number of bytes already consumed is the
multiple of 4 `n - n mod 4` and exactly `n mod 4 <= 3` bytes remain, so the index `i & 3`
inside the remainder is the absolute offset mod 4. -/
theorem C15_cascade_chunk_invariant (b key : Bytes) (hb : IsBytes b) (hk : key.length = 4)
    (hkb : IsBytes key) :
    ∃ s, MaskXOR_Original_Optimized_st b key = Except.ok s ∧
      s.log.count Blk.w64x8 = b.length / 64 ∧
      (∃ key32 s1, leUint32 key = some key32 ∧
        loop64 (mkKey64 key32) b.length (Buf.mk [] b []) = Except.ok s1 ∧
        s1.done.length = 64 * (b.length / 64) ∧ s1.cur.length = b.length % 64) ∧
      s.log.count Blk.w64x4 ≤ 1 ∧ s.log.count Blk.w64x2 ≤ 1 ∧
      s.log.count Blk.w64x1 ≤ 1 ∧ s.log.count Blk.w32 ≤ 1 ∧
      s.log.count Blk.byte = b.length % 4 ∧
      s.done.length = b.length - b.length % 4 ∧ s.done.length % 4 = 0 ∧
      s.cur.length = b.length % 4 ∧ s.cur.length ≤ 3 ∧
      ∀ i, i < s.cur.length → i &&& 3 = (s.done.length + i) % 4 := by
  have gk := goodKey_of_length key hk hkb
  obtain ⟨key32, h32⟩ := leUint32_goodKey gk
  obtain ⟨-, -, c3, c4, c5, c6, c7, c8⟩ := cascadeLog_counts b.length
  have hd := finalState_done_length key [] b (cascadeLog b.length)
  have hc := finalState_cur_length key [] b (cascadeLog b.length)
  have hdm := Nat.div_add_mod b.length 64
  have hle : b.length / 64 * 64 ≤ b.length := Nat.div_mul_le_self _ _
  simp only [List.length_nil, Nat.zero_add] at hd
  refine ⟨_, scalar_state b key gk hb, c3, ?_, c4, c5, c6, c7, c8, hd, ?_, hc, ?_, ?_⟩
  · refine ⟨key32, _, h32, loop64_spec key key32 gk h32 b.length [] b [] hb
      (Nat.div_le_self _ _), ?_, length_drop_div b 64⟩
    simp only [List.nil_append, xorAt_length, List.length_take, Nat.min_eq_left hle]
    omega
  · rw [hd]; omega
  · rw [hc]; omega
  · intro i hi
    rw [hc] at hi
    rw [hd]
    have h4 : i < 4 := by omega
    have he : (b.length - b.length % 4 + i) % 4 = i := by omega
    rw [he]
    interval_cases i <;> rfl

/-- C15 at the 127-byte benchmark buffer, where every step of the cascade runs. -/
theorem C15_cascade_chunk_invariant_witness :
    IsBytes (benchBuf 127) ∧ benchKey.length = 4 ∧ IsBytes benchKey ∧
    ∃ s, MaskXOR_Original_Optimized_st (benchBuf 127) benchKey = Except.ok s ∧
      s.log.count Blk.w64x8 = (benchBuf 127).length / 64 ∧
      (∃ key32 s1, leUint32 benchKey = some key32 ∧
        loop64 (mkKey64 key32) (benchBuf 127).length (Buf.mk [] (benchBuf 127) [])
          = Except.ok s1 ∧
        s1.done.length = 64 * ((benchBuf 127).length / 64) ∧
        s1.cur.length = (benchBuf 127).length % 64) ∧
      s.log.count Blk.w64x4 ≤ 1 ∧ s.log.count Blk.w64x2 ≤ 1 ∧
      s.log.count Blk.w64x1 ≤ 1 ∧ s.log.count Blk.w32 ≤ 1 ∧
      s.log.count Blk.byte = (benchBuf 127).length % 4 ∧
      s.done.length = (benchBuf 127).length - (benchBuf 127).length % 4 ∧
      s.done.length % 4 = 0 ∧
      s.cur.length = (benchBuf 127).length % 4 ∧ s.cur.length ≤ 3 ∧
      ∀ i, i < s.cur.length → i &&& 3 = (s.done.length + i) % 4 :=
  ⟨benchBuf_isBytes 127, rfl, benchKey_isBytes,
    C15_cascade_chunk_invariant (benchBuf 127) benchKey (benchBuf_isBytes 127) rfl
      benchKey_isBytes⟩

theorem IsBytes.append {a b : Bytes} (ha : IsBytes a) (hb : IsBytes b) : IsBytes (a ++ b) := by
  intro x hx
  rcases List.mem_append.1 hx with h | h
  · exact ha x h
  · exact hb x h

theorem xorAt_append_aligned (key a b : Bytes) (h : a.length % 4 = 0) :
    xorAt key 0 (a ++ b) = xorAt key 0 a ++ xorAt key 0 b := by
  rw [xorAt_append, xorAt_phase key b (0 + a.length) 0 (by omega)]

/-- C16: masking distributes over concatenation at 4-byte-aligned split points: for all
byte buffers `A` and `B` with `len(A)` a multiple of 4 and every four-byte key `K`,
`Mask(A ++ B, K) = Mask(A, K) ++ Mask(B, K)`, for `MaskXOR_Original_Optimized` and for each
of the three vector strategies. -/
theorem C16_mask_distributes_over_aligned_concat (a b key : Bytes) (ha : IsBytes a)
    (hb : IsBytes b) (hk : key.length = 4) (hkb : IsBytes key) (h4 : a.length % 4 = 0) :
    (∃ ra rb, MaskXOR_Original_Optimized a key = Except.ok ra ∧
      MaskXOR_Original_Optimized b key = Except.ok rb ∧
      MaskXOR_Original_Optimized (a ++ b) key = Except.ok (ra ++ rb)) ∧
    (∃ ra rb, MaskXOR_SIMD128 a key = Except.ok ra ∧ MaskXOR_SIMD128 b key = Except.ok rb ∧
      MaskXOR_SIMD128 (a ++ b) key = Except.ok (ra ++ rb)) ∧
    (∃ ra rb, MaskXOR_SIMD256 a key = Except.ok ra ∧ MaskXOR_SIMD256 b key = Except.ok rb ∧
      MaskXOR_SIMD256 (a ++ b) key = Except.ok (ra ++ rb)) ∧
    (∃ ra rb, MaskXOR_SIMD256_128 a key = Except.ok ra ∧
      MaskXOR_SIMD256_128 b key = Except.ok rb ∧
      MaskXOR_SIMD256_128 (a ++ b) key = Except.ok (ra ++ rb)) := by
  have gk := goodKey_of_length key hk hkb
  have hab := ha.append hb
  have e := xorAt_append_aligned key a b h4
  refine ⟨⟨_, _, scalar_eq_xorAt a key gk ha, scalar_eq_xorAt b key gk hb, ?_⟩,
    ⟨_, _, simd128_eq_xorAt a key gk ha, simd128_eq_xorAt b key gk hb, ?_⟩,
    ⟨_, _, simd256_eq_xorAt a key gk ha, simd256_eq_xorAt b key gk hb, ?_⟩,
    ⟨_, _, hybrid_eq_xorAt a key gk ha, hybrid_eq_xorAt b key gk hb, ?_⟩⟩
  · rw [scalar_eq_xorAt _ key gk hab, e]
  · rw [simd128_eq_xorAt _ key gk hab, e]
  · rw [simd256_eq_xorAt _ key gk hab, e]
  · rw [hybrid_eq_xorAt _ key gk hab, e]

/-- C16 with `A` the 68-byte and `B` the 515-byte benchmark buffer. -/
theorem C16_mask_distributes_over_aligned_concat_witness :
    IsBytes (benchBuf 68) ∧ IsBytes (benchBuf 515) ∧ benchKey.length = 4 ∧
    IsBytes benchKey ∧ (benchBuf 68).length % 4 = 0 ∧
    ((∃ ra rb, MaskXOR_Original_Optimized (benchBuf 68) benchKey = Except.ok ra ∧
      MaskXOR_Original_Optimized (benchBuf 515) benchKey = Except.ok rb ∧
      MaskXOR_Original_Optimized (benchBuf 68 ++ benchBuf 515) benchKey
        = Except.ok (ra ++ rb)) ∧
    (∃ ra rb, MaskXOR_SIMD128 (benchBuf 68) benchKey = Except.ok ra ∧
      MaskXOR_SIMD128 (benchBuf 515) benchKey = Except.ok rb ∧
      MaskXOR_SIMD128 (benchBuf 68 ++ benchBuf 515) benchKey = Except.ok (ra ++ rb)) ∧
    (∃ ra rb, MaskXOR_SIMD256 (benchBuf 68) benchKey = Except.ok ra ∧
      MaskXOR_SIMD256 (benchBuf 515) benchKey = Except.ok rb ∧
      MaskXOR_SIMD256 (benchBuf 68 ++ benchBuf 515) benchKey = Except.ok (ra ++ rb)) ∧
    (∃ ra rb, MaskXOR_SIMD256_128 (benchBuf 68) benchKey = Except.ok ra ∧
      MaskXOR_SIMD256_128 (benchBuf 515) benchKey = Except.ok rb ∧
      MaskXOR_SIMD256_128 (benchBuf 68 ++ benchBuf 515) benchKey = Except.ok (ra ++ rb))) :=
  ⟨benchBuf_isBytes 68, benchBuf_isBytes 515, rfl, benchKey_isBytes,
    by rw [benchBuf_length],
    C16_mask_distributes_over_aligned_concat (benchBuf 68) (benchBuf 515) benchKey
      (benchBuf_isBytes 68) (benchBuf_isBytes 515) rfl benchKey_isBytes
      (by rw [benchBuf_length])⟩

theorem leUint32_short (key : Bytes) (h : key.length < 4) : leUint32 key = none := by
  rcases key with _ | ⟨a, _ | ⟨b, _ | ⟨c, _ | ⟨d, t⟩⟩⟩⟩
  · rfl
  · rfl
  · rfl
  · rfl
  · simp at h
    omega

/-- C17: for every key with fewer than 4 entries (the empty key included) and every buffer
(the empty one included), each of the four strategies ends in a run-time panic raised by
its first statement, the 32-bit little-endian read of the key, and the memory at the panic
is the buffer exactly as it was passed in; no strategy returns normally. -/
theorem C17_short_key_panics_buffer_untouched (b key : Bytes) (hk : key.length < 4) :
    (MaskXOR_Original_Optimized b key = Except.error (Fault.panic b) ∧
      MaskXOR_SIMD128 b key = Except.error (Fault.panic b) ∧
      MaskXOR_SIMD256 b key = Except.error (Fault.panic b) ∧
      MaskXOR_SIMD256_128 b key = Except.error (Fault.panic b)) ∧
    leUint32 key = none ∧
    (∀ r, MaskXOR_Original_Optimized b key ≠ Except.ok r ∧
      MaskXOR_SIMD128 b key ≠ Except.ok r ∧ MaskXOR_SIMD256 b key ≠ Except.ok r ∧
      MaskXOR_SIMD256_128 b key ≠ Except.ok r) := by
  have h := leUint32_short key hk
  have e1 : MaskXOR_Original_Optimized b key = Except.error (Fault.panic b) := by
    simp [MaskXOR_Original_Optimized, MaskXOR_Original_Optimized_st, h, observe, Buf.mem]
  have e2 : MaskXOR_SIMD128 b key = Except.error (Fault.panic b) := by
    simp [MaskXOR_SIMD128, MaskXOR_SIMD128_st, h, observe, Buf.mem]
  have e3 : MaskXOR_SIMD256 b key = Except.error (Fault.panic b) := by
    simp [MaskXOR_SIMD256, MaskXOR_SIMD256_st, h, observe, Buf.mem]
  have e4 : MaskXOR_SIMD256_128 b key = Except.error (Fault.panic b) := by
    simp [MaskXOR_SIMD256_128, MaskXOR_SIMD256_128_st, h, observe, Buf.mem]
  refine ⟨⟨e1, e2, e3, e4⟩, h, fun r => ?_⟩
  rw [e1, e2, e3, e4]
  refine ⟨?_, ?_, ?_, ?_⟩ <;> intro h <;> cases h

/-- C17 with the 3-byte key `[1,2,3]` on the 600-byte benchmark buffer. -/
theorem C17_short_key_panics_buffer_untouched_witness :
    [1, 2, 3].length < 4 ∧
    ((MaskXOR_Original_Optimized (benchBuf 600) [1, 2, 3]
        = Except.error (Fault.panic (benchBuf 600)) ∧
      MaskXOR_SIMD128 (benchBuf 600) [1, 2, 3] = Except.error (Fault.panic (benchBuf 600)) ∧
      MaskXOR_SIMD256 (benchBuf 600) [1, 2, 3] = Except.error (Fault.panic (benchBuf 600)) ∧
      MaskXOR_SIMD256_128 (benchBuf 600) [1, 2, 3]
        = Except.error (Fault.panic (benchBuf 600))) ∧
    leUint32 [1, 2, 3] = none ∧
    (∀ r, MaskXOR_Original_Optimized (benchBuf 600) [1, 2, 3] ≠ Except.ok r ∧
      MaskXOR_SIMD128 (benchBuf 600) [1, 2, 3] ≠ Except.ok r ∧
      MaskXOR_SIMD256 (benchBuf 600) [1, 2, 3] ≠ Except.ok r ∧
      MaskXOR_SIMD256_128 (benchBuf 600) [1, 2, 3] ≠ Except.ok r)) :=
  ⟨by decide, C17_short_key_panics_buffer_untouched (benchBuf 600) [1, 2, 3] (by decide)⟩

theorem getD_take4 (key : Bytes) (j : Nat) (hj : j < 4) :
    (key.take 4).getD j 0 = key.getD j 0 := by
  rw [List.getD_eq_getElem?_getD, List.getD_eq_getElem?_getD, List.getElem?_take_of_lt hj]

theorem xorAt_take4 (key : Bytes) (l : Bytes) :
    ∀ i, xorAt (key.take 4) i l = xorAt key i l := by
  induction l with
  | nil => intro i; rfl
  | cons x xs ih =>
    intro i
    simp only [xorAt, ih]
    rw [getD_take4 key (i % 4) (Nat.mod_lt _ (by norm_num))]

theorem goodKey_take4 (key : Bytes) (hl : 4 ≤ key.length) (hb : IsBytes key) :
    GoodKey (key.take 4) := by
  refine ⟨by simp; omega, ?_⟩
  rw [List.take_take]
  exact hb.take _

/-- C18: for every key longer than 4 bytes and every byte buffer, each strategy returns
normally, and its result is the result of the same strategy called with only the first 4
bytes of the key: the bytes `key[4:]` are ignored. -/
theorem C18_long_key_uses_first_four (b key : Bytes) (hb : IsBytes b)
    (hk : 4 < key.length) (hkb : IsBytes key) :
    (∃ r, MaskXOR_Original_Optimized b key = Except.ok r ∧
      MaskXOR_Original_Optimized b (key.take 4) = Except.ok r) ∧
    (∃ r, MaskXOR_SIMD128 b key = Except.ok r ∧
      MaskXOR_SIMD128 b (key.take 4) = Except.ok r) ∧
    (∃ r, MaskXOR_SIMD256 b key = Except.ok r ∧
      MaskXOR_SIMD256 b (key.take 4) = Except.ok r) ∧
    (∃ r, MaskXOR_SIMD256_128 b key = Except.ok r ∧
      MaskXOR_SIMD256_128 b (key.take 4) = Except.ok r) := by
  have gk : GoodKey key := ⟨by omega, hkb.take 4⟩
  have gk4 := goodKey_take4 key (by omega) hkb
  have e := xorAt_take4 key b 0
  refine ⟨⟨_, scalar_eq_xorAt b key gk hb, ?_⟩, ⟨_, simd128_eq_xorAt b key gk hb, ?_⟩,
    ⟨_, simd256_eq_xorAt b key gk hb, ?_⟩, ⟨_, hybrid_eq_xorAt b key gk hb, ?_⟩⟩
  · rw [scalar_eq_xorAt b _ gk4 hb, e]
  · rw [simd128_eq_xorAt b _ gk4 hb, e]
  · rw [simd256_eq_xorAt b _ gk4 hb, e]
  · rw [hybrid_eq_xorAt b _ gk4 hb, e]

/-- C18 with the 6-byte key `[1,2,3,4,5,6]` on the 600-byte benchmark buffer. -/
theorem C18_long_key_uses_first_four_witness :
    IsBytes (benchBuf 600) ∧ 4 < [1, 2, 3, 4, 5, 6].length ∧ IsBytes [1, 2, 3, 4, 5, 6] ∧
    ((∃ r, MaskXOR_Original_Optimized (benchBuf 600) [1, 2, 3, 4, 5, 6] = Except.ok r ∧
      MaskXOR_Original_Optimized (benchBuf 600) ([1, 2, 3, 4, 5, 6].take 4) = Except.ok r) ∧
    (∃ r, MaskXOR_SIMD128 (benchBuf 600) [1, 2, 3, 4, 5, 6] = Except.ok r ∧
      MaskXOR_SIMD128 (benchBuf 600) ([1, 2, 3, 4, 5, 6].take 4) = Except.ok r) ∧
    (∃ r, MaskXOR_SIMD256 (benchBuf 600) [1, 2, 3, 4, 5, 6] = Except.ok r ∧
      MaskXOR_SIMD256 (benchBuf 600) ([1, 2, 3, 4, 5, 6].take 4) = Except.ok r) ∧
    (∃ r, MaskXOR_SIMD256_128 (benchBuf 600) [1, 2, 3, 4, 5, 6] = Except.ok r ∧
      MaskXOR_SIMD256_128 (benchBuf 600) ([1, 2, 3, 4, 5, 6].take 4) = Except.ok r)) :=
  ⟨benchBuf_isBytes 600, by decide, by decide,
    C18_long_key_uses_first_four (benchBuf 600) [1, 2, 3, 4, 5, 6] (benchBuf_isBytes 600)
      (by decide) (by decide)⟩

theorem xorAt_comp (k1 k2 : Bytes) (h1 : k1.length = 4) (h2 : k2.length = 4) (l : Bytes) :
    ∀ i, xorAt k2 i (xorAt k1 i l)
      = xorAt (List.zipWith (fun x y => x ^^^ y) k1 k2) i l := by
  obtain ⟨a0, a1, a2, a3, at1, rfl⟩ := exists_cons4 k1 (by omega)
  obtain ⟨b0, b1, b2, b3, bt, rfl⟩ := exists_cons4 k2 (by omega)
  have ha : at1 = [] := by simpa using h1
  have hb : bt = [] := by simpa using h2
  subst ha hb
  induction l with
  | nil => intro i; rfl
  | cons x xs ih =>
    intro i
    simp only [xorAt, ih]
    congr 1
    have hi : i % 4 < 4 := Nat.mod_lt _ (by norm_num)
    rw [Nat.xor_assoc]
    congr 1
    generalize i % 4 = j at hi
    interval_cases j <;> rfl

theorem xorAt_zero_key (l : Bytes) : ∀ i, xorAt [0, 0, 0, 0] i l = l := by
  induction l with
  | nil => intro i; rfl
  | cons x xs ih =>
    intro i
    simp only [xorAt, ih]
    have hi : i % 4 < 4 := Nat.mod_lt _ (by norm_num)
    congr 1
    generalize i % 4 = j at hi
    interval_cases j <;> simp

theorem xor_lt_256 (x y : Nat) (hx : x < 256) (hy : y < 256) : x ^^^ y < 256 := by
  have hx8 : x < 2 ^ 8 := hx
  have hy8 : y < 2 ^ 8 := hy
  simpa using Nat.xor_lt_two_pow hx8 hy8

theorem zipWith_xor_isBytes (k1 k2 : Bytes) (h1 : k1.length = 4) (h2 : k2.length = 4)
    (h1b : IsBytes k1) (h2b : IsBytes k2) :
    IsBytes (List.zipWith (fun x y => x ^^^ y) k1 k2) := by
  obtain ⟨a0, a1, a2, a3, at1, rfl, ha0, ha1, ha2, ha3⟩ := (goodKey_of_length k1 h1 h1b).cases
  obtain ⟨b0, b1, b2, b3, bt, rfl, hb0, hb1, hb2, hb3⟩ := (goodKey_of_length k2 h2 h2b).cases
  have ha : at1 = [] := by simpa using h1
  have hb : bt = [] := by simpa using h2
  subst ha hb
  intro z hz
  simp only [List.zipWith_cons_cons, List.zipWith_nil_left, List.mem_cons,
    List.mem_nil_iff, or_false] at hz
  rcases hz with rfl | rfl | rfl | rfl
  · exact xor_lt_256 _ _ ha0 hb0
  · exact xor_lt_256 _ _ ha1 hb1
  · exact xor_lt_256 _ _ ha2 hb2
  · exact xor_lt_256 _ _ ha3 hb3

/-- C19: for every byte buffer `B` and all four-byte keys `K1`, `K2`,
`MaskXOR_Original_Optimized` satisfies `Mask(Mask(B,K1),K2) = Mask(B, K1 XOR K2)` with the
keys XORed byte by byte; hence the two maskings commute, and masking with the all-zero key
leaves `B` unchanged. -/
theorem C19_masks_compose_by_key_xor (b k1 k2 : Bytes) (hb : IsBytes b)
    (h1 : k1.length = 4) (h1b : IsBytes k1) (h2 : k2.length = 4) (h2b : IsBytes k2) :
    (∃ r1 r2, MaskXOR_Original_Optimized b k1 = Except.ok r1 ∧
      MaskXOR_Original_Optimized r1 k2 = Except.ok r2 ∧
      MaskXOR_Original_Optimized b (List.zipWith (fun x y => x ^^^ y) k1 k2)
        = Except.ok r2 ∧
      ∃ r3, MaskXOR_Original_Optimized b k2 = Except.ok r3 ∧
        MaskXOR_Original_Optimized r3 k1 = Except.ok r2) ∧
    MaskXOR_Original_Optimized b [0, 0, 0, 0] = Except.ok b := by
  have g1 := goodKey_of_length k1 h1 h1b
  have g2 := goodKey_of_length k2 h2 h2b
  have hx := zipWith_xor_isBytes k1 k2 h1 h2 h1b h2b
  have hxl : (List.zipWith (fun x y => x ^^^ y) k1 k2).length = 4 := by simp [h1, h2]
  have gx := goodKey_of_length _ hxl hx
  have g0 : GoodKey [0, 0, 0, 0] := by decide
  have r1b := xorAt_isBytes k1 h1b b hb 0
  have r3b := xorAt_isBytes k2 h2b b hb 0
  have e12 := xorAt_comp k1 k2 h1 h2 b 0
  have e21 := xorAt_comp k2 k1 h2 h1 b 0
  have hsym : List.zipWith (fun x y => x ^^^ y) k2 k1
      = List.zipWith (fun x y => x ^^^ y) k1 k2 := by
    rw [List.zipWith_comm]
    congr 1
    funext x y
    exact Nat.xor_comm y x
  refine ⟨⟨_, _, scalar_eq_xorAt b k1 g1 hb, scalar_eq_xorAt _ k2 g2 r1b, ?_,
    _, scalar_eq_xorAt b k2 g2 hb, ?_⟩, ?_⟩
  · rw [scalar_eq_xorAt b _ gx hb, e12]
  · rw [scalar_eq_xorAt _ k1 g1 r3b, e21, hsym, e12]
  · rw [scalar_eq_xorAt b _ g0 hb, xorAt_zero_key]

/-- C19 with the keys `[1,2,3,4]` and `[0xFF,0x0F,0xF0,0x55]` on the 67-byte benchmark
buffer. -/
theorem C19_masks_compose_by_key_xor_witness :
    IsBytes (benchBuf 67) ∧ benchKey.length = 4 ∧ IsBytes benchKey ∧
    [0xFF, 0x0F, 0xF0, 0x55].length = 4 ∧ IsBytes [0xFF, 0x0F, 0xF0, 0x55] ∧
    (∃ r1 r2, MaskXOR_Original_Optimized (benchBuf 67) benchKey = Except.ok r1 ∧
      MaskXOR_Original_Optimized r1 [0xFF, 0x0F, 0xF0, 0x55] = Except.ok r2 ∧
      MaskXOR_Original_Optimized (benchBuf 67)
          (List.zipWith (fun x y => x ^^^ y) benchKey [0xFF, 0x0F, 0xF0, 0x55])
        = Except.ok r2 ∧
      ∃ r3, MaskXOR_Original_Optimized (benchBuf 67) [0xFF, 0x0F, 0xF0, 0x55]
          = Except.ok r3 ∧
        MaskXOR_Original_Optimized r3 benchKey = Except.ok r2) ∧
    MaskXOR_Original_Optimized (benchBuf 67) [0, 0, 0, 0] = Except.ok (benchBuf 67) :=
  ⟨benchBuf_isBytes 67, rfl, benchKey_isBytes, rfl, by decide,
    C19_masks_compose_by_key_xor (benchBuf 67) benchKey [0xFF, 0x0F, 0xF0, 0x55]
      (benchBuf_isBytes 67) rfl benchKey_isBytes rfl (by decide)⟩

end WsMask
